import Mathlib

/-!
Shallow embedding of the Cppsched task scheduler (`src/Scheduler.hpp`).

Modelling conventions:
* `Clock::time_point` and `Clock::duration` are embedded as `Int` (ticks).
* `shared_ptr<Task>` sharing is embedded with an explicit heap: a list of
  `(reference, Task)` pairs; all containers store references into it, so a
  mutation through one alias is seen by all (as in the C++ code).
* `std::multimap` is embedded as a list sorted by key with stable insertion
  at the upper bound of the equal-key range (the C++11 `emplace`/`insert`
  guarantee).  Multimap iterators are embedded as per-entry identities
  (`eid`, drawn from a global counter): an iterator is valid exactly while
  its entry is present in one of the containers.
* Methods that in C++ throw an exception return `Except SchedError _`; on
  `.error` the caller's state object is untouched, exactly as with a C++
  throw that happens before any mutation.
* `Clock::now()` is passed explicitly as a `now : Int` argument at each
  point where the C++ code reads the clock.
* External collaborators excluded by the design (the croncpp evaluator,
  `std::get_time`/`mktime` string parsing, and string formatting) are
  parameters of the model (`CronEval`, `Collab`), mirroring their
  interfaces: `next(expression, now) -> instant`, validity of an
  expression, `parse(format, string, now) -> instant | failure`,
  `format(fmt, instant) -> string`.
-/

namespace Cppsched

/-- Embedding of `Clock::time_point` (and `Clock::duration`) as integer ticks. -/
abbrev TimePoint := Int

/-- The exception types of `Scheduler.hpp`: `BadDateFormat`,
`TaskAlreadyExists`, `BadCronExpression`. -/
inductive SchedError where
  | badDateFormat
  | taskAlreadyExists
  | badCronExpression
deriving DecidableEq, Repr

/-- The closed set of `Task` subclasses and their variant-specific data:
`InTask`, `AtTask`, `EveryTask` (with its `Clock::duration time` field) and
`CronTask` (with its `std::string exp` field). -/
inductive TaskKind where
  | inTask
  | atTask
  | everyTask (time : Int)
  | cronTask (exp : String)
deriving DecidableEq, Repr

/-- The base-class fields of `Cppsched::Task` (the action `f` is not part of
the model; executor submissions are reported as task references instead). -/
structure Task where
  id : String
  time_str : String
  kind : TaskKind
  recur : Bool
  interval : Bool
  enabled : Bool
  removed : Bool
deriving DecidableEq, Repr

/-- Constructor of `InTask`: `Task(.., recur = false, interval = false)`. -/
def mkInTask (task_id time_str : String) : Task :=
  ⟨task_id, time_str, .inTask, false, false, true, false⟩

/-- Constructor of `AtTask`: `Task(.., recur = false, interval = false)`. -/
def mkAtTask (task_id time_str : String) : Task :=
  ⟨task_id, time_str, .atTask, false, false, true, false⟩

/-- Constructor of `EveryTask`: `Task(.., recur = true, interval)` with the
configured duration. -/
def mkEveryTask (task_id time_str : String) (time : Int) (interval : Bool) : Task :=
  ⟨task_id, time_str, .everyTask time, true, interval, true, false⟩

/-- Constructor of `CronTask`: `Task(.., recur = true, interval = false)` with
the cron expression. -/
def mkCronTask (task_id time_str exp : String) : Task :=
  ⟨task_id, time_str, .cronTask exp, true, false, true, false⟩

/-- The croncpp collaborator interface: `make_cron` either accepts an
expression (`valid`) or throws `bad_cronexpr`; `cron_next` maps the current
instant to the next matching instant. -/
structure CronEval where
  valid : String → Bool
  next : String → TimePoint → TimePoint

/-- Embedding of `Task::get_new_time()` per variant (`now` is what `Clock::now()` returns
at the call).  `InTask`/`AtTask` return the dummy epoch
`Clock::time_point(Clock::duration(0))`; `EveryTask` returns
`Clock::now() + time`; `CronTask` evaluates `make_cron(exp)` (throwing
`BadCronExpression` for an invalid expression) and returns
`cron_next(cron, Clock::now())`. -/
def Task.get_new_time (ce : CronEval) (now : TimePoint) (t : Task) :
    Except SchedError TimePoint :=
  match t.kind with
  | .inTask => .ok 0
  | .atTask => .ok 0
  | .everyTask time => .ok (now + time)
  | .cronTask exp =>
      if ce.valid exp then .ok (ce.next exp now) else .error .badCronExpression

/-- One node of a `std::multimap<Clock::time_point, std::shared_ptr<Task>>`:
`eid` is the node identity (the iterator), `time` the key, `ref` the heap
reference held by the `shared_ptr`. -/
structure Entry where
  eid : Nat
  time : TimePoint
  ref : Nat
deriving DecidableEq, Repr

/-- The state of a `Cppsched::Scheduler` protected by its single `lock`,
together with the heap of shared `Task` objects and the
`InterruptableSleep` pending flag.  `nextEid`/`nextRef` are the allocators
for node identities and heap references. -/
structure SchedState where
  heap : List (Nat × Task)
  tasks : List Entry
  completed : List Entry
  tasksMap : List (String × Nat)
  interrupted : Bool
  nextEid : Nat
  nextRef : Nat
deriving DecidableEq, Repr

/-- The scheduler starts with no tasks and no pending interruption. -/
def emptyState : SchedState := ⟨[], [], [], [], false, 0, 0⟩

/-- Decidable equality for `Except` values, used to evaluate the model on
concrete inputs. -/
instance {ε α : Type} [DecidableEq ε] [DecidableEq α] :
    DecidableEq (Except ε α) := fun x y =>
  match x, y with
  | .ok a, .ok b =>
      if h : a = b then .isTrue (by rw [h])
      else .isFalse (fun hh => h (Except.ok.inj hh))
  | .error a, .error b =>
      if h : a = b then .isTrue (by rw [h])
      else .isFalse (fun hh => h (Except.error.inj hh))
  | .ok _, .error _ => .isFalse (fun hh => Except.noConfusion hh)
  | .error _, .ok _ => .isFalse (fun hh => Except.noConfusion hh)

/-- Dereference a heap reference (a `shared_ptr<Task>` target). -/
def heapGet (h : List (Nat × Task)) (r : Nat) : Option Task :=
  (h.find? (fun p => p.1 = r)).map (·.2)

/-- Mutate the `Task` object behind a heap reference (a write through a
`shared_ptr`, seen by every container holding the same pointer). -/
def heapModify (h : List (Nat × Task)) (r : Nat) (f : Task → Task) :
    List (Nat × Task) :=
  h.map (fun p => if p.1 = r then (p.1, f p.2) else p)

/-- Embedding of `tasks_map.find(id)`: look up an id in the `std::map` index. -/
def mapFind (m : List (String × Nat)) (id : String) : Option Nat :=
  (m.find? (fun p => p.1 = id)).map (·.2)

/-- Embedding of `tasks_map[id] = it`: insert-or-assign on the `std::map`,
keeping keys unique.  (The map's sorted-by-id iteration order is not
modelled: `String.ltb` does not reduce in the kernel, and no verified
property depends on the index's iteration order.) -/
def mapSet (m : List (String × Nat)) (id : String) (e : Nat) :
    List (String × Nat) :=
  match m with
  | [] => [(id, e)]
  | (k, v) :: rest =>
      if k = id then (id, e) :: rest
      else (k, v) :: mapSet rest id e

/-- Embedding of `tasks_map.erase(id)`. -/
def mapErase (m : List (String × Nat)) (id : String) : List (String × Nat) :=
  m.filter (fun p => p.1 ≠ id)

/-- Embedding of `std::multimap` insertion: a new node goes at the upper bound of its
equal-key range (after every node with key ≤ its key), keeping the list
sorted and insertion-stable.  `key` projects the comparison key. -/
def mmInsertBy (key : α → Int) (x : α) : List α → List α
  | [] => [x]
  | y :: rest =>
      if key y ≤ key x then y :: mmInsertBy key x rest else x :: y :: rest

/-- Dereference a stored iterator: find the node with identity `eid` in
either `tasks` or `completed_interval_tasks` (a `tasks_map` value can point
into either container).  `none` models an invalidated (dangling) iterator,
whose dereference in C++ is undefined behaviour. -/
def findEntry (s : SchedState) (eid : Nat) : Option Entry :=
  match s.tasks.find? (fun e => e.eid = eid) with
  | some e => some e
  | none => s.completed.find? (fun e => e.eid = eid)

/-- The body shared by both `Scheduler::add_task` overloads once the task
object is in hand: `tasks.emplace(time, t)`, `tasks_map[task_id] = it`,
`sleeper.interrupt()`. -/
def add_task_impl (s : SchedState) (time : TimePoint) (r : Nat) (task_id : String) :
    SchedState :=
  { s with
    tasks := mmInsertBy Entry.time ⟨s.nextEid, time, r⟩ s.tasks
    tasksMap := mapSet s.tasksMap task_id s.nextEid
    nextEid := s.nextEid + 1
    interrupted := true }

/-- Embedding of `Scheduler::add_task(time, t)` (no duplicate check): used by the
interval-completion wrapper; reads the id from the task object and inserts
unconditionally. -/
def add_task_unkeyed (s : SchedState) (time : TimePoint) (r : Nat) : SchedState :=
  match heapGet s.heap r with
  | some t => add_task_impl s time r t.id
  | none => s

/-- Embedding of `Scheduler::add_task(task_id, time, t)`: if the id is already in
`tasks_map`, throw `TaskAlreadyExists` (no mutation); otherwise allocate
the shared task object and insert into both containers, interrupting the
sleeper.  (In C++ the temporary `shared_ptr` built by the caller is
destroyed by the throw, so a failed call leaves no object behind; the model
allocates only on the success path accordingly.) -/
def add_task_keyed (s : SchedState) (task_id : String) (time : TimePoint)
    (t : Task) : Except SchedError SchedState :=
  if (mapFind s.tasksMap task_id).isSome then
    .error .taskAlreadyExists
  else
    let r := s.nextRef
    .ok (add_task_impl { s with heap := s.heap ++ [(r, t)], nextRef := r + 1 }
          time r task_id)

/-- The excluded external collaborators, as parameters of the model:
the cron evaluator, `try_parse`+`mktime` (as
`parse format expression now`, where `now` carries the "fields of today"
that `localtime` pre-fills into the `tm`), `format_duration` and
`format_time_point`. -/
structure Collab where
  cron : CronEval
  parse : String → String → TimePoint → Option TimePoint
  fmtDuration : Int → String
  fmtTimePoint : String → TimePoint → String

/-- Embedding of `std::chrono::hours(24)` in ticks (nanoseconds, the libstdc++
`system_clock` period). -/
def hours24 : Int := 24 * 3600 * 1000000000

/-- Embedding of `Scheduler::in(task_id, time, f)`: an `InTask` due at `now + time`. -/
def sched_in (C : Collab) (now : TimePoint) (s : SchedState) (task_id : String)
    (time : Int) : Except SchedError SchedState :=
  add_task_keyed s task_id (now + time)
    (mkInTask task_id ("in: " ++ C.fmtDuration time))

/-- Embedding of `Scheduler::at(task_id, time, f)` (time_point overload): an `AtTask` due
at the given instant. -/
def sched_at_tp (C : Collab) (s : SchedState) (task_id : String)
    (time : TimePoint) : Except SchedError SchedState :=
  add_task_keyed s task_id time
    (mkAtTask task_id ("at: " ++ C.fmtTimePoint "%F %T %z" time))

/-- Embedding of `Scheduler::at(task_id, time, f)` (string overload): try
`"%H:%M:%S"`, then `"%Y-%m-%d %H:%M:%S"`, then `"%Y/%m/%d %H:%M:%S"`; if
only a time-of-day parsed and it is already past (`Clock::now() >= tp`),
add 24 hours; if nothing parsed, throw `BadDateFormat`. -/
def sched_at_str (C : Collab) (now : TimePoint) (s : SchedState)
    (task_id : String) (time : String) : Except SchedError SchedState :=
  match C.parse "%H:%M:%S" time now with
  | some tp0 =>
      let tp := if now ≥ tp0 then tp0 + hours24 else tp0
      add_task_keyed s task_id tp
        (mkAtTask task_id ("at: " ++ C.fmtTimePoint "%F %T %z" tp))
  | none =>
  match C.parse "%Y-%m-%d %H:%M:%S" time now with
  | some tp =>
      add_task_keyed s task_id tp
        (mkAtTask task_id ("at: " ++ C.fmtTimePoint "%F %T %z" tp))
  | none =>
  match C.parse "%Y/%m/%d %H:%M:%S" time now with
  | some tp =>
      add_task_keyed s task_id tp
        (mkAtTask task_id ("at: " ++ C.fmtTimePoint "%F %T %z" tp))
  | none => .error .badDateFormat

/-- Embedding of `Scheduler::every(task_id, time, f)`: an `EveryTask` (overlap
permitted); its first due instant is `t->get_new_time()`, i.e.
`Clock::now() + time`. -/
def sched_every (C : Collab) (now : TimePoint) (s : SchedState)
    (task_id : String) (time : Int) : Except SchedError SchedState :=
  let t := mkEveryTask task_id ("every: " ++ C.fmtDuration time) time false
  match t.get_new_time C.cron now with
  | .ok next_time => add_task_keyed s task_id next_time t
  | .error e => .error e

/-- Embedding of `Scheduler::cron(task_id, expression, f)`: a `CronTask`; the first due
instant is computed eagerly with `t->get_new_time()`, so an invalid
expression throws `BadCronExpression` before any insertion. -/
def sched_cron (C : Collab) (now : TimePoint) (s : SchedState)
    (task_id : String) (exp : String) : Except SchedError SchedState :=
  let t := mkCronTask task_id ("cron: " ++ exp) exp
  match t.get_new_time C.cron now with
  | .ok next_time => add_task_keyed s task_id next_time t
  | .error e => .error e

/-- Embedding of `Scheduler::interval(task_id, time, f)`: an `EveryTask` with
`interval = true`; the eagerly computed `next_time` is discarded and the
task is registered due immediately, at `Clock::now()`. -/
def sched_interval (C : Collab) (now : TimePoint) (s : SchedState)
    (task_id : String) (time : Int) : Except SchedError SchedState :=
  let t := mkEveryTask task_id ("interval: " ++ C.fmtDuration time) time true
  match t.get_new_time C.cron now with
  | .ok _ => add_task_keyed s task_id now t
  | .error e => .error e

/-- Embedding of `Scheduler::remove_task(task_id)`: if the id is in `tasks_map`, set
`removed = true` through the stored iterator, erase the id from the map
and return `true`; otherwise return `false` with no change.  (Dereferencing
a dangling iterator is C++ UB; the model leaves the heap untouched in that
case.) -/
def remove_task (s : SchedState) (task_id : String) : Bool × SchedState :=
  match mapFind s.tasksMap task_id with
  | none => (false, s)
  | some eid =>
      let s1 :=
        match findEntry s eid with
        | some e =>
            { s with heap := heapModify s.heap e.ref (fun t => { t with removed := true }) }
        | none => s
      (true, { s1 with tasksMap := mapErase s1.tasksMap task_id })

/-- Embedding of `Scheduler::disable_task(task_id)`: if found, set `enabled = false` in
place (store positions untouched) and return `true`; else `false`. -/
def disable_task (s : SchedState) (task_id : String) : Bool × SchedState :=
  match mapFind s.tasksMap task_id with
  | none => (false, s)
  | some eid =>
      match findEntry s eid with
      | some e =>
          (true, { s with heap := heapModify s.heap e.ref (fun t => { t with enabled := false }) })
      | none => (true, s)

/-- Embedding of `Scheduler::enable_task(task_id)`: if found, set `enabled = true` in
place and return `true`; else `false`. -/
def enable_task (s : SchedState) (task_id : String) : Bool × SchedState :=
  match mapFind s.tasksMap task_id with
  | none => (false, s)
  | some eid =>
      match findEntry s eid with
      | some e =>
          (true, { s with heap := heapModify s.heap e.ref (fun t => { t with enabled := true }) })
      | none => (true, s)

/-- One row of `Scheduler::get_tasks_list()`. -/
structure TaskReport where
  id : String
  time_str : String
  next_run_str : String
  enabled : Bool
deriving DecidableEq, Repr

/-- Embedding of `Scheduler::get_tasks_list()`: one `TaskReport` per `tasks_map` entry,
with `next_run` recomputed via `task->get_new_time()` and
formatted with `"%F %T %z"`.  Entries whose iterator is dangling or whose
`get_new_time` throws (both impossible in well-formed states, UB resp. an
escaping exception in C++) are skipped. -/
def get_tasks_list (C : Collab) (now : TimePoint) (s : SchedState) :
    List TaskReport :=
  s.tasksMap.filterMap (fun p =>
    match findEntry s p.2 with
    | none => none
    | some e =>
        match heapGet s.heap e.ref with
        | none => none
        | some task =>
            match task.get_new_time C.cron now with
            | .error _ => none
            | .ok next_run =>
                some ⟨task.id, task.time_str,
                      C.fmtTimePoint "%F %T %z" next_run, task.enabled⟩)

/-- The loop state of one `Scheduler::manage_tasks()` sweep: the scheduler
state being mutated in place (`completed_interval_tasks` inserts and
`tasks_map` assignments happen inside the loop), the local
`recurred_tasks` multimap and `non_recurred_tasks` vector, plus the
observable submissions to the thread pool: `pushes` are direct
`threads.push([task]{ task->f(); })` submissions, `wrappers` the interval
wrappers `(task ref, holding-set node id)`. -/
structure SweepCtx where
  st : SchedState
  recurred : List (TimePoint × Nat)
  nonRecurred : List Nat
  pushes : List Nat
  wrappers : List (Nat × Nat)
deriving Repr

/-- The `threads.push([task](int) { task->f(); })` submission of a fired
non-interval task, performed only when the task is enabled and not
removed. -/
def pushIf (task : Task) (e : Entry) (c : SweepCtx) : SweepCtx :=
  if task.enabled && !task.removed then
    { c with pushes := c.pushes ++ [e.ref] }
  else c

/-- The interval-branch state change for an enabled, not-removed interval
task: `completed_interval_tasks.insert(*i)`, `tasks_map[task->id] = it`,
and the wrapper submission. -/
def holdInterval (task : Task) (e : Entry) (c : SweepCtx) : SweepCtx :=
  { c with
    st := { c.st with
            completed := mmInsertBy Entry.time ⟨c.st.nextEid, e.time, e.ref⟩ c.st.completed
            tasksMap := mapSet c.st.tasksMap task.id c.st.nextEid
            nextEid := c.st.nextEid + 1 }
    wrappers := c.wrappers ++ [(e.ref, c.st.nextEid)] }

/-- The per-entry body of the `manage_tasks` fired-range loop. -/
def processEntry (C : Collab) (now : TimePoint) (e : Entry) (c : SweepCtx) :
    Except SchedError SweepCtx :=
  match heapGet c.st.heap e.ref with
  | none => .ok c
  | some task =>
    if task.interval then
      if task.enabled && !task.removed then
        .ok (holdInterval task e c)
      else
        -- recurred_tasks.emplace(task->get_new_time(), std::move(task));
        match task.get_new_time C.cron now with
        | .ok nt => .ok { c with recurred := mmInsertBy Prod.fst (nt, e.ref) c.recurred }
        | .error err => .error err
    else
      let c1 := pushIf task e c
      if task.recur then
        match task.get_new_time C.cron now with
        | .ok nt => .ok { c1 with recurred := mmInsertBy Prod.fst (nt, e.ref) c1.recurred }
        | .error err => .error err
      else
        .ok { c1 with nonRecurred := c1.nonRecurred ++ [e.ref] }

/-- The fired-range loop of `manage_tasks`, entry by entry in store order. -/
def sweepList (C : Collab) (now : TimePoint) :
    List Entry → SweepCtx → Except SchedError SweepCtx
  | [], c => .ok c
  | e :: es, c =>
      match processEntry C now e c with
      | .ok c1 => sweepList C now es c1
      | .error err => .error err

/-- One step of the re-add loop: skip a `removed` task, otherwise
`tasks.emplace(time, task)` and `tasks_map[task->id] = it`. -/
def readdOne (st : SchedState) (p : TimePoint × Nat) : SchedState :=
  match heapGet st.heap p.2 with
  | none => st
  | some task =>
      if task.removed then st
      else
        { st with
          tasks := mmInsertBy Entry.time ⟨st.nextEid, p.1, p.2⟩ st.tasks
          tasksMap := mapSet st.tasksMap task.id st.nextEid
          nextEid := st.nextEid + 1 }

/-- The `manage_tasks` re-add loop over `recurred_tasks` (in its multimap
key order). -/
def readdRecurred (st : SchedState) : List (TimePoint × Nat) → SchedState
  | [] => st
  | p :: ps => readdRecurred (readdOne st p) ps

/-- One step of the `non_recurred_tasks` cleanup loop:
`tasks_map.erase(tasks_map.find(task->id))` when found. -/
def eraseNonRecurredOne (st : SchedState) (r : Nat) : SchedState :=
  match heapGet st.heap r with
  | none => st
  | some task => { st with tasksMap := mapErase st.tasksMap task.id }

/-- The `non_recurred_tasks` cleanup loop. -/
def eraseNonRecurred (st : SchedState) : List Nat → SchedState
  | [] => st
  | r :: rs => eraseNonRecurred (eraseNonRecurredOne st r) rs

/-- Embedding of `tasks.upper_bound(Clock::now())` on the sorted store: the fired range
is the maximal initial segment with key ≤ now. -/
def firedOf (now : TimePoint) (s : SchedState) : List Entry :=
  s.tasks.takeWhile (fun e => e.time ≤ now)

/-- Embedding of `Scheduler::manage_tasks()` (one sweep, entirely under the lock):
partition off the fired range, run the per-entry policy loop, erase the
fired range from `tasks`, re-add the recurring tasks that are not
`removed`, and drop the ids of fired one-shot tasks from `tasks_map`.
Returns the new state together with the submissions handed to the thread
pool.  An exception from `get_new_time` propagates (`.error`). -/
def manage_tasks (C : Collab) (now : TimePoint) (s : SchedState) :
    Except SchedError (SchedState × List Nat × List (Nat × Nat)) :=
  let fired := firedOf now s
  if fired.isEmpty then .ok (s, [], [])
  else
    match sweepList C now fired ⟨s, [], [], [], []⟩ with
    | .error err => .error err
    | .ok c =>
        let st1 := { c.st with tasks := s.tasks.dropWhile (fun e => e.time ≤ now) }
        let st2 := readdRecurred st1 c.recurred
        let st3 := eraseNonRecurred st2 c.nonRecurred
        .ok (st3, c.pushes, c.wrappers)

/-- The interval wrapper submitted to the pool, after `task->f()` returns
(`now` is the completion instant): `add_task(task->get_new_time(), task)`
followed by `completed_interval_tasks.erase(it)`.  (In the source the
erase happens after `add_task` released the lock.) -/
def interval_complete (C : Collab) (now : TimePoint) (s : SchedState)
    (r : Nat) (heid : Nat) : Except SchedError SchedState :=
  match heapGet s.heap r with
  | none => .ok s
  | some task =>
      match task.get_new_time C.cron now with
      | .error err => .error err
      | .ok nt =>
          let s1 := add_task_unkeyed s nt r
          .ok { s1 with completed := s1.completed.filter (fun e => e.eid ≠ heid) }

/-- Embedding of `Cppsched::InterruptableSleep`, abstracted to its pending-interrupt
state machine: the mutex/condition-variable mechanics and real-time waiting
are not modelled; what remains is the `interrupted` flag, which every sleep
call reads (a pending interruption makes the wait predicate true at entry,
so the call returns immediately) and then clears. -/
structure InterruptableSleep where
  interrupted : Bool
deriving DecidableEq, Repr

/-- Embedding of `InterruptableSleep::interrupt()`: `interrupted = true`. -/
def InterruptableSleep.interruptCall (_s : InterruptableSleep) : InterruptableSleep :=
  ⟨true⟩

/-- Embedding of `InterruptableSleep::sleep_for(duration)`: returns whether a pending
interruption made the call complete immediately, and the post-call state
(`interrupted = false`). -/
def InterruptableSleep.sleepFor (s : InterruptableSleep) :
    Bool × InterruptableSleep :=
  (s.interrupted, ⟨false⟩)

/-- Embedding of `InterruptableSleep::sleep_until(time)`: same flag discipline as
`sleep_for`. -/
def InterruptableSleep.sleepUntil (s : InterruptableSleep) :
    Bool × InterruptableSleep :=
  (s.interrupted, ⟨false⟩)

/-- Embedding of `InterruptableSleep::sleep()`: same flag discipline; without a pending
interruption the call blocks until one arrives. -/
def InterruptableSleep.sleepCall (s : InterruptableSleep) :
    Bool × InterruptableSleep :=
  (s.interrupted, ⟨false⟩)

/-- A scheduler state together with the in-flight interval wrappers that
the pool has accepted but whose completion callback has not yet run, and
the wall clock observed so far (each lock-taking step happens at a
monotonically non-decreasing instant). -/
structure World where
  st : SchedState
  pending : List (Nat × Nat)
  clock : TimePoint
deriving Repr, DecidableEq

/-- One lock-acquire/lock-release block of the scheduler, as observable by
another thread: a registration call (only successful ones change state; a
throwing call leaves the state untouched), a control operation, a
dispatcher sweep (which hands new interval wrappers to the pool), or the
locked part of an interval wrapper running its completion. -/
inductive Step (C : Collab) : World → World → Prop
  | regIn (w : World) (now : TimePoint) (task_id : String) (time : Int)
      (s1 : SchedState) :
      w.clock ≤ now → sched_in C now w.st task_id time = .ok s1 →
      Step C w ⟨s1, w.pending, now⟩
  | regAtTp (w : World) (now : TimePoint) (task_id : String) (time : TimePoint)
      (s1 : SchedState) :
      w.clock ≤ now → sched_at_tp C w.st task_id time = .ok s1 →
      Step C w ⟨s1, w.pending, now⟩
  | regAtStr (w : World) (now : TimePoint) (task_id : String) (time : String)
      (s1 : SchedState) :
      w.clock ≤ now → sched_at_str C now w.st task_id time = .ok s1 →
      Step C w ⟨s1, w.pending, now⟩
  | regEvery (w : World) (now : TimePoint) (task_id : String) (time : Int)
      (s1 : SchedState) :
      w.clock ≤ now → sched_every C now w.st task_id time = .ok s1 →
      Step C w ⟨s1, w.pending, now⟩
  | regCron (w : World) (now : TimePoint) (task_id : String) (exp : String)
      (s1 : SchedState) :
      w.clock ≤ now → sched_cron C now w.st task_id exp = .ok s1 →
      Step C w ⟨s1, w.pending, now⟩
  | regInterval (w : World) (now : TimePoint) (task_id : String) (time : Int)
      (s1 : SchedState) :
      w.clock ≤ now → sched_interval C now w.st task_id time = .ok s1 →
      Step C w ⟨s1, w.pending, now⟩
  | ctlRemove (w : World) (task_id : String) :
      Step C w ⟨(remove_task w.st task_id).2, w.pending, w.clock⟩
  | ctlDisable (w : World) (task_id : String) :
      Step C w ⟨(disable_task w.st task_id).2, w.pending, w.clock⟩
  | ctlEnable (w : World) (task_id : String) :
      Step C w ⟨(enable_task w.st task_id).2, w.pending, w.clock⟩
  | sweep (w : World) (now : TimePoint) (s1 : SchedState)
      (pushes : List Nat) (wrappers : List (Nat × Nat)) :
      w.clock ≤ now → manage_tasks C now w.st = .ok (s1, pushes, wrappers) →
      Step C w ⟨s1, w.pending ++ wrappers, now⟩
  | complete (w : World) (now : TimePoint) (r heid : Nat) (s1 : SchedState) :
      w.clock ≤ now → (r, heid) ∈ w.pending →
      interval_complete C now w.st r heid = .ok s1 →
      Step C w ⟨s1, w.pending.erase (r, heid), now⟩

/-- States reachable from a freshly constructed scheduler. -/
def Reachable (C : Collab) (w : World) : Prop :=
  Relation.ReflTransGen (Step C) ⟨emptyState, [], 0⟩ w

/-- The §3 index invariant: every `tasks_map` entry dereferences to a live
node of `tasks` or of `completed_interval_tasks`. -/
def noDangling (s : SchedState) : Prop :=
  ∀ p ∈ s.tasksMap, (findEntry s p.2).isSome

/-- A concrete instantiation of the collaborators, for concrete runs: no
cron expression is valid, no time string parses, formatting returns the
empty string. -/
def trivialCollab : Collab :=
  { cron := ⟨fun _ => false, fun _ _ => 0⟩
    parse := fun _ _ _ => none
    fmtDuration := fun _ => ""
    fmtTimePoint := fun _ _ => "" }

theorem mem_mmInsertBy {key : α → Int} {x a : α} {l : List α} :
    a ∈ mmInsertBy key x l ↔ a = x ∨ a ∈ l := by
  induction l with
  | nil => simp [mmInsertBy]
  | cons y rest ih =>
      simp only [mmInsertBy]
      split
      · simp only [List.mem_cons, ih]
        tauto
      · simp [List.mem_cons]

theorem mapFind_cons (k : String) (v : Nat) (m : List (String × Nat)) (id : String) :
    mapFind ((k, v) :: m) id = if k = id then some v else mapFind m id := by
  simp only [mapFind, List.find?]
  by_cases h : k = id
  · simp [h]
  · simp [h]

theorem mapFind_mapSet_self (m : List (String × Nat)) (id : String) (e : Nat) :
    mapFind (mapSet m id e) id = some e := by
  induction m with
  | nil => simp [mapSet, mapFind_cons]
  | cons kv rest ih =>
      obtain ⟨k, v⟩ := kv
      simp only [mapSet]
      split
      · simp [mapFind_cons]
      · rename_i hk
        simp [mapFind_cons, hk, ih]

theorem mapFind_mapSet_ne (m : List (String × Nat)) (id id2 : String) (e : Nat)
    (h : id2 ≠ id) : mapFind (mapSet m id e) id2 = mapFind m id2 := by
  have h2 : id ≠ id2 := Ne.symm h
  induction m with
  | nil => simp [mapSet, mapFind_cons, mapFind, h2]
  | cons kv rest ih =>
      obtain ⟨k, v⟩ := kv
      simp only [mapSet]
      split
      · rename_i hk
        subst hk
        simp [mapFind_cons, h2]
      · simp [mapFind_cons, ih]

theorem mapFind_mapErase_self (m : List (String × Nat)) (id : String) :
    mapFind (mapErase m id) id = none := by
  induction m with
  | nil => simp [mapErase, mapFind]
  | cons kv rest ih =>
      obtain ⟨k, v⟩ := kv
      by_cases h : k = id
      · simpa [mapErase, h] using ih
      · simpa [mapErase, h, mapFind_cons] using ih

theorem mapFind_mapErase_ne (m : List (String × Nat)) (id id2 : String)
    (h : id2 ≠ id) : mapFind (mapErase m id) id2 = mapFind m id2 := by
  induction m with
  | nil => simp [mapErase, mapFind]
  | cons kv rest ih =>
      obtain ⟨k, v⟩ := kv
      by_cases hk : k = id
      · subst hk
        have h2 : k ≠ id2 := Ne.symm h
        simpa [mapErase, mapFind_cons, h2] using ih
      · by_cases hk2 : k = id2
        · subst hk2
          simp [mapErase, List.filter_cons, hk, mapFind_cons]
        · simpa [mapErase, List.filter_cons, hk, mapFind_cons, hk2] using ih

theorem heapGet_heapModify_self (h : List (Nat × Task)) (r : Nat) (f : Task → Task) :
    heapGet (heapModify h r f) r = (heapGet h r).map f := by
  induction h with
  | nil => simp [heapGet, heapModify]
  | cons p rest ih =>
      obtain ⟨n, t⟩ := p
      by_cases hn : n = r
      · subst hn
        simp [heapGet, heapModify, List.find?]
      · simp only [heapModify, List.map] at ih ⊢
        simp only [hn, if_false]
        simpa [heapGet, List.find?, hn] using ih

theorem heapGet_heapModify_ne (h : List (Nat × Task)) (r r2 : Nat) (f : Task → Task)
    (hne : r2 ≠ r) : heapGet (heapModify h r f) r2 = heapGet h r2 := by
  induction h with
  | nil => simp [heapGet, heapModify]
  | cons p rest ih =>
      obtain ⟨n, t⟩ := p
      by_cases hn : n = r
      · subst hn
        have : n ≠ r2 := Ne.symm hne
        simpa [heapGet, heapModify, List.find?, this] using ih
      · by_cases hn2 : n = r2
        · subst hn2
          simp [heapGet, heapModify, List.find?, hn]
        · simpa [heapGet, heapModify, List.find?, hn, hn2] using ih

/-- C9: the `InterruptableSleep` pending-interrupt state machine.  Each of
`sleep()`, `sleep_for`, `sleep_until` consumes at most one pending
interruption (returning immediately exactly when one is pending) and clears
the flag on return; an `interrupt()` issued before any sleep makes the next
sleep call return immediately; multiple `interrupt()` calls without an
intervening sleep collapse to one; and a consumed interruption has no
effect on any later sleep. -/
theorem c9_interruptable_sleep_flag_machine (s : InterruptableSleep) :
    (s.interruptCall.sleepCall.1 = true ∧
     s.interruptCall.sleepFor.1 = true ∧
     s.interruptCall.sleepUntil.1 = true) ∧
    (s.sleepCall.2.interrupted = false ∧
     s.sleepFor.2.interrupted = false ∧
     s.sleepUntil.2.interrupted = false) ∧
    s.interruptCall.interruptCall = s.interruptCall ∧
    (s.interruptCall.sleepCall.2.sleepCall.1 = false ∧
     s.interruptCall.sleepFor.2.sleepFor.1 = false ∧
     s.interruptCall.sleepUntil.2.sleepUntil.1 = false) := by
  refine ⟨⟨rfl, rfl, rfl⟩, ⟨rfl, rfl, rfl⟩, rfl, rfl, rfl, rfl⟩

/-- Witness for C9 at the initial sleeper state. -/
theorem c9_interruptable_sleep_flag_machine_witness :
    (InterruptableSleep.mk false).interruptCall.sleepCall.1 = true ∧
    (InterruptableSleep.mk false).sleepCall.2.interrupted = false :=
  ⟨(c9_interruptable_sleep_flag_machine ⟨false⟩).1.1,
   (c9_interruptable_sleep_flag_machine ⟨false⟩).2.1.1⟩

/-- C2: the insertion contract of `Scheduler::add_task(task_id, time, t)`.
If the id is currently present in `tasks_map` the call throws
`TaskAlreadyExists` — and since the throw happens before any mutation, the
store, the index and the sleeper flag of the caller are unchanged (in the
embedding an `.error` result returns no new state at all).  If the id is
absent, one single locked block appends the task object, inserts the store
node, binds the id to it and raises the sleeper's interrupt flag — there is
no partial-success state.  Each registration call (`in`, `at` in both
overloads, `every`, `cron`, `interval`) reduces to this one `add_task`
(for `cron` once the expression is valid, for the string `at` once the
string parses). -/
theorem c2_registration_insertion_contract (C : Collab) (now : TimePoint)
    (s s1 : SchedState) (task_id : String) (time : Int) (t : Task) :
    ((mapFind s.tasksMap task_id).isSome →
        add_task_keyed s task_id time t = .error .taskAlreadyExists) ∧
    (mapFind s.tasksMap task_id = none →
        add_task_keyed s task_id time t = .ok s1 →
        s1.heap = s.heap ++ [(s.nextRef, t)] ∧
        s1.tasks = mmInsertBy Entry.time ⟨s.nextEid, time, s.nextRef⟩ s.tasks ∧
        s1.tasksMap = mapSet s.tasksMap task_id s.nextEid ∧
        mapFind s1.tasksMap task_id = some s.nextEid ∧
        (∀ id2, id2 ≠ task_id → mapFind s1.tasksMap id2 = mapFind s.tasksMap id2) ∧
        s1.completed = s.completed ∧
        s1.interrupted = true) ∧
    sched_in C now s task_id time =
      add_task_keyed s task_id (now + time)
        (mkInTask task_id ("in: " ++ C.fmtDuration time)) ∧
    sched_at_tp C s task_id time =
      add_task_keyed s task_id time
        (mkAtTask task_id ("at: " ++ C.fmtTimePoint "%F %T %z" time)) ∧
    sched_every C now s task_id time =
      add_task_keyed s task_id (now + time)
        (mkEveryTask task_id ("every: " ++ C.fmtDuration time) time false) ∧
    sched_interval C now s task_id time =
      add_task_keyed s task_id now
        (mkEveryTask task_id ("interval: " ++ C.fmtDuration time) time true) ∧
    (∀ exp, C.cron.valid exp = true →
       sched_cron C now s task_id exp =
         add_task_keyed s task_id (C.cron.next exp now)
           (mkCronTask task_id ("cron: " ++ exp) exp)) ∧
    (∀ str tp0, C.parse "%H:%M:%S" str now = some tp0 →
       sched_at_str C now s task_id str =
         add_task_keyed s task_id (if now ≥ tp0 then tp0 + hours24 else tp0)
           (mkAtTask task_id
             ("at: " ++ C.fmtTimePoint "%F %T %z" (if now ≥ tp0 then tp0 + hours24 else tp0)))) := by
  refine ⟨?_, ?_, rfl, rfl, ?_, ?_, ?_, ?_⟩
  · intro h
    simp [add_task_keyed, h]
  · intro hnone hok
    simp only [add_task_keyed, hnone, Option.isSome_none, Bool.false_eq_true,
      if_false, Except.ok.injEq] at hok
    subst hok
    refine ⟨rfl, rfl, rfl, ?_, ?_, rfl, rfl⟩
    · exact mapFind_mapSet_self _ _ _
    · intro id2 h2
      exact mapFind_mapSet_ne _ _ _ _ h2
  · simp [sched_every, Task.get_new_time, mkEveryTask]
  · simp [sched_interval, Task.get_new_time, mkEveryTask]
  · intro exp hv
    simp [sched_cron, Task.get_new_time, mkCronTask, hv]
  · intro str tp0 hp
    simp [sched_at_str, hp]

/-- A concrete scheduler state holding one registered task with id "a"
(the result of `in("a", ...)` on a fresh scheduler at instant 0). -/
def oneTaskState : SchedState :=
  { heap := [(0, mkInTask "a" "t")]
    tasks := [⟨0, 3, 0⟩]
    completed := []
    tasksMap := [("a", 0)]
    interrupted := true
    nextEid := 1
    nextRef := 1 }

/-- Witness for C2: on a fresh scheduler registering id "a" succeeds and
sets the interrupt flag; registering "a" again fails with
`TaskAlreadyExists`. -/
theorem c2_registration_insertion_contract_witness :
    add_task_keyed emptyState "a" 3 (mkInTask "a" "t") = .ok oneTaskState ∧
    oneTaskState.interrupted = true ∧
    mapFind oneTaskState.tasksMap "a" = some 0 ∧
    add_task_keyed oneTaskState "a" 5 (mkInTask "a" "t2") = .error .taskAlreadyExists := by
  have h1 := (c2_registration_insertion_contract trivialCollab 0 emptyState oneTaskState
      "a" 3 (mkInTask "a" "t")).2.1 (by decide) (by rfl)
  have h2 := (c2_registration_insertion_contract trivialCollab 0 oneTaskState oneTaskState
      "a" 5 (mkInTask "a" "t2")).1 (by decide)
  exact ⟨by rfl, h1.2.2.2.2.2.2, h1.2.2.2.1, h2⟩

/-- C6: `enable_task`, `disable_task` and `remove_task` return `true`
exactly when the id is currently in `tasks_map`, and return `false` with no
state change otherwise.  When found, enable/disable flip the `enabled` flag
in place through the shared pointer, leaving the time-ordered store, the
holding set and the index untouched; remove sets `removed = true` in place
and erases the id from the index only, leaving the store entry where it
is. -/
theorem c6_control_operations_contract (s : SchedState) (task_id : String) :
    ((remove_task s task_id).1 = (mapFind s.tasksMap task_id).isSome ∧
     (disable_task s task_id).1 = (mapFind s.tasksMap task_id).isSome ∧
     (enable_task s task_id).1 = (mapFind s.tasksMap task_id).isSome) ∧
    (mapFind s.tasksMap task_id = none →
       (remove_task s task_id).2 = s ∧
       (disable_task s task_id).2 = s ∧
       (enable_task s task_id).2 = s) ∧
    (∀ eid e t, mapFind s.tasksMap task_id = some eid →
       findEntry s eid = some e → heapGet s.heap e.ref = some t →
       ((disable_task s task_id).2.tasks = s.tasks ∧
        (disable_task s task_id).2.completed = s.completed ∧
        (disable_task s task_id).2.tasksMap = s.tasksMap ∧
        heapGet (disable_task s task_id).2.heap e.ref = some { t with enabled := false } ∧
        (enable_task s task_id).2.tasks = s.tasks ∧
        (enable_task s task_id).2.completed = s.completed ∧
        (enable_task s task_id).2.tasksMap = s.tasksMap ∧
        heapGet (enable_task s task_id).2.heap e.ref = some { t with enabled := true } ∧
        (remove_task s task_id).2.tasks = s.tasks ∧
        (remove_task s task_id).2.completed = s.completed ∧
        heapGet (remove_task s task_id).2.heap e.ref = some { t with removed := true } ∧
        mapFind (remove_task s task_id).2.tasksMap task_id = none ∧
        (∀ id2, id2 ≠ task_id →
           mapFind (remove_task s task_id).2.tasksMap id2 = mapFind s.tasksMap id2))) := by
  refine ⟨⟨?_, ?_, ?_⟩, ?_, ?_⟩
  · unfold remove_task
    cases h : mapFind s.tasksMap task_id <;> simp [h]
  · unfold disable_task
    cases h : mapFind s.tasksMap task_id with
    | none => simp [h]
    | some eid => cases hf : findEntry s eid <;> simp [h, hf]
  · unfold enable_task
    cases h : mapFind s.tasksMap task_id with
    | none => simp [h]
    | some eid => cases hf : findEntry s eid <;> simp [h, hf]
  · intro h
    refine ⟨?_, ?_, ?_⟩ <;> simp [remove_task, disable_task, enable_task, h]
  · intro eid e t hm hf hg
    have hd : (disable_task s task_id).2 =
        { s with heap := heapModify s.heap e.ref (fun tk => { tk with enabled := false }) } := by
      simp [disable_task, hm, hf]
    have hen : (enable_task s task_id).2 =
        { s with heap := heapModify s.heap e.ref (fun tk => { tk with enabled := true }) } := by
      simp [enable_task, hm, hf]
    have hr : (remove_task s task_id).2 =
        { s with heap := heapModify s.heap e.ref (fun tk => { tk with removed := true })
                 tasksMap := mapErase s.tasksMap task_id } := by
      simp [remove_task, hm, hf]
    rw [hd, hen, hr]
    refine ⟨rfl, rfl, rfl, ?_, rfl, rfl, rfl, ?_, rfl, rfl, ?_, ?_, ?_⟩
    · simp [heapGet_heapModify_self, hg]
    · simp [heapGet_heapModify_self, hg]
    · simp [heapGet_heapModify_self, hg]
    · exact mapFind_mapErase_self _ _
    · intro id2 h2
      exact mapFind_mapErase_ne _ _ _ h2

/-- Witness for C6 on the one-task state: the three operations return
`true` for the registered id "a" and `false` for an unknown id "b", the
unknown case leaving the state unchanged; removing "a" erases it from the
index but not from the store. -/
theorem c6_control_operations_contract_witness :
    (remove_task oneTaskState "a").1 = true ∧
    (disable_task oneTaskState "b").1 = false ∧
    (disable_task oneTaskState "b").2 = oneTaskState ∧
    heapGet (disable_task oneTaskState "a").2.heap 0 =
      some { mkInTask "a" "t" with enabled := false } ∧
    mapFind (remove_task oneTaskState "a").2.tasksMap "a" = none ∧
    (remove_task oneTaskState "a").2.tasks = oneTaskState.tasks := by
  have hfound := c6_control_operations_contract oneTaskState "a"
  have hmiss := (c6_control_operations_contract oneTaskState "b").2.1 (by decide)
  have hmut := hfound.2.2 0 ⟨0, 3, 0⟩ (mkInTask "a" "t") (by decide) (by decide) (by decide)
  exact ⟨by simpa using hfound.1.1, by simpa using
    (c6_control_operations_contract oneTaskState "b").1.2.1,
    hmiss.2.1, hmut.2.2.2.1, hmut.2.2.2.2.2.2.2.2.2.2.2.1, hmut.2.2.2.2.2.2.2.2.1⟩

/-- C7: the string overload of `at` tries `"%H:%M:%S"`, then
`"%Y-%m-%d %H:%M:%S"`, then `"%Y/%m/%d %H:%M:%S"`, in that fixed order
(its result depends only on the first format that parses); when only a
time-of-day parses and that instant has already passed
(`Clock::now() >= tp`), 24 hours are added; when no format parses, the call
throws `BadDateFormat` — before any insertion, so no task is registered and
the state object is untouched. -/
theorem c7_at_string_formats (C : Collab) (now : TimePoint) (s : SchedState)
    (task_id time : String) :
    (∀ tp0, C.parse "%H:%M:%S" time now = some tp0 →
       sched_at_str C now s task_id time =
         add_task_keyed s task_id (if now ≥ tp0 then tp0 + hours24 else tp0)
           (mkAtTask task_id
             ("at: " ++ C.fmtTimePoint "%F %T %z" (if now ≥ tp0 then tp0 + hours24 else tp0)))) ∧
    (∀ tp, C.parse "%H:%M:%S" time now = none →
       C.parse "%Y-%m-%d %H:%M:%S" time now = some tp →
       sched_at_str C now s task_id time =
         add_task_keyed s task_id tp
           (mkAtTask task_id ("at: " ++ C.fmtTimePoint "%F %T %z" tp))) ∧
    (∀ tp, C.parse "%H:%M:%S" time now = none →
       C.parse "%Y-%m-%d %H:%M:%S" time now = none →
       C.parse "%Y/%m/%d %H:%M:%S" time now = some tp →
       sched_at_str C now s task_id time =
         add_task_keyed s task_id tp
           (mkAtTask task_id ("at: " ++ C.fmtTimePoint "%F %T %z" tp))) ∧
    (C.parse "%H:%M:%S" time now = none →
       C.parse "%Y-%m-%d %H:%M:%S" time now = none →
       C.parse "%Y/%m/%d %H:%M:%S" time now = none →
       sched_at_str C now s task_id time = .error .badDateFormat) := by
  refine ⟨?_, ?_, ?_, ?_⟩
  · intro tp0 h1
    simp [sched_at_str, h1]
  · intro tp h1 h2
    simp [sched_at_str, h1, h2]
  · intro tp h1 h2 h3
    simp [sched_at_str, h1, h2, h3]
  · intro h1 h2 h3
    simp [sched_at_str, h1, h2, h3]

/-- A parse collaborator that accepts only the bare time-of-day format and
places it at instant 100 irrespective of `now` (modelling "10:00 today"). -/
def todayOnlyCollab : Collab :=
  { trivialCollab with
    parse := fun format _ _ => if format = "%H:%M:%S" then some 100 else none }

/-- Witness for C7: with a time-of-day-only parse, registration at
`now = 150` (already past instant 100) rolls the task forward by 24 hours,
and with no parseable format the call throws `BadDateFormat`. -/
theorem c7_at_string_formats_witness :
    sched_at_str todayOnlyCollab 150 emptyState "a" "10:00:00" =
      add_task_keyed emptyState "a" (100 + hours24)
        (mkAtTask "a" ("at: " ++ todayOnlyCollab.fmtTimePoint "%F %T %z" (100 + hours24))) ∧
    sched_at_str trivialCollab 150 emptyState "a" "nonsense" = .error .badDateFormat := by
  have h1 := (c7_at_string_formats todayOnlyCollab 150 emptyState "a" "10:00:00").1 100 rfl
  have h4 := (c7_at_string_formats trivialCollab 150 emptyState "a" "nonsense").2.2.2
      rfl rfl rfl
  refine ⟨?_, h4⟩
  simpa using h1

/-- C8: a `cron` registration whose expression the evaluator rejects throws
`BadCronExpression` while eagerly computing the first due instant, before
any insertion into store or index (in the embedding the `.error` is
produced before `add_task_keyed` is reached, so no state change); a
`CronTask` holding an invalid expression fails the same way on every later
`get_new_time` call; with a valid expression the registration proceeds to
the normal insertion at the cron successor of now. -/
theorem c8_invalid_cron_rejected (C : Collab) (now : TimePoint) (s : SchedState)
    (task_id exp : String) :
    (C.cron.valid exp = false →
       sched_cron C now s task_id exp = .error .badCronExpression) ∧
    (∀ time_str now2, C.cron.valid exp = false →
       (mkCronTask task_id time_str exp).get_new_time C.cron now2 =
         .error .badCronExpression) ∧
    (C.cron.valid exp = true →
       sched_cron C now s task_id exp =
         add_task_keyed s task_id (C.cron.next exp now)
           (mkCronTask task_id ("cron: " ++ exp) exp)) := by
  refine ⟨?_, ?_, ?_⟩
  · intro h
    simp [sched_cron, Task.get_new_time, mkCronTask, h]
  · intro time_str now2 h
    simp [Task.get_new_time, mkCronTask, h]
  · intro h
    simp [sched_cron, Task.get_new_time, mkCronTask, h]

/-- Witness for C8: under the collaborator that rejects every expression,
registering a cron task fails with `BadCronExpression`, and its
`get_new_time` fails identically at two different instants. -/
theorem c8_invalid_cron_rejected_witness :
    sched_cron trivialCollab 0 emptyState "a" "bad" = .error .badCronExpression ∧
    (mkCronTask "a" "cron: bad" "bad").get_new_time trivialCollab.cron 7 =
      .error .badCronExpression ∧
    (mkCronTask "a" "cron: bad" "bad").get_new_time trivialCollab.cron 99 =
      .error .badCronExpression :=
  ⟨(c8_invalid_cron_rejected trivialCollab 0 emptyState "a" "bad").1 rfl,
   (c8_invalid_cron_rejected trivialCollab 0 emptyState "a" "bad").2.1 "cron: bad" 7 rfl,
   (c8_invalid_cron_rejected trivialCollab 0 emptyState "a" "bad").2.1 "cron: bad" 99 rfl⟩

/-- C10: for a one-shot task (`InTask` or `AtTask`) present in the by-id
index, `get_tasks_list` reports the next-run field as the formatted clock
epoch `Clock::time_point(Clock::duration(0))` — the dummy value returned by
the one-shot `get_new_time` overrides — rather than the instant the store
actually holds for the task. -/
theorem c10_oneshot_list_reports_epoch (C : Collab) (now : TimePoint)
    (s : SchedState) (task_id : String) (eid : Nat) (e : Entry) (t : Task) :
    mapFind s.tasksMap task_id = some eid →
    findEntry s eid = some e →
    heapGet s.heap e.ref = some t →
    (t.kind = .inTask ∨ t.kind = .atTask) →
    (⟨t.id, t.time_str, C.fmtTimePoint "%F %T %z" 0, t.enabled⟩ : TaskReport) ∈
      get_tasks_list C now s := by
  intro hm hf hg hk
  have hfind : ∃ p : String × Nat, p ∈ s.tasksMap ∧ p.2 = eid := by
    simp only [mapFind, Option.map_eq_some'] at hm
    obtain ⟨p, hp, hpe⟩ := hm
    exact ⟨p, List.mem_of_find?_eq_some hp, hpe⟩
  obtain ⟨p, hpmem, hpe⟩ := hfind
  have hnt : t.get_new_time C.cron now = .ok 0 := by
    rcases hk with hk | hk <;> simp [Task.get_new_time, hk]
  refine List.mem_filterMap.mpr ⟨p, hpmem, ?_⟩
  simp [hpe, hf, hg, hnt]

/-- A concrete state holding one `AtTask` scheduled at instant 42. -/
def oneAtTaskState : SchedState :=
  { heap := [(0, mkAtTask "a" "at: ")]
    tasks := [⟨0, 42, 0⟩]
    completed := []
    tasksMap := [("a", 0)]
    interrupted := true
    nextEid := 1
    nextRef := 1 }

/-- Witness for C10: the listed report for the `AtTask` scheduled at 42
carries the formatted epoch (instant 0), not the formatted instant 42. -/
theorem c10_oneshot_list_reports_epoch_witness :
    (⟨"a", "at: ", trivialCollab.fmtTimePoint "%F %T %z" 0, true⟩ : TaskReport) ∈
      get_tasks_list trivialCollab 5 oneAtTaskState :=
  c10_oneshot_list_reports_epoch trivialCollab 5 oneAtTaskState "a" 0 ⟨0, 42, 0⟩
    (mkAtTask "a" "at: ") (by decide) (by decide) (by decide) (Or.inr rfl)

theorem processEntry_cases (C : Collab) (now : TimePoint) (e : Entry)
    (c c1 : SweepCtx) (h : processEntry C now e c = .ok c1) :
    (heapGet c.st.heap e.ref = none ∧ c1 = c) ∨
    (∃ task, heapGet c.st.heap e.ref = some task ∧
      ((task.interval = true ∧ task.enabled = true ∧ task.removed = false ∧
          c1 = holdInterval task e c) ∨
       (task.interval = true ∧ ¬(task.enabled = true ∧ task.removed = false) ∧
          ∃ nt, task.get_new_time C.cron now = .ok nt ∧
            c1 = { c with recurred := mmInsertBy Prod.fst (nt, e.ref) c.recurred }) ∨
       (task.interval = false ∧ task.recur = true ∧
          ∃ nt, task.get_new_time C.cron now = .ok nt ∧
            c1 = { pushIf task e c with
                   recurred := mmInsertBy Prod.fst (nt, e.ref) (pushIf task e c).recurred }) ∨
       (task.interval = false ∧ task.recur = false ∧
          c1 = { pushIf task e c with
                 nonRecurred := (pushIf task e c).nonRecurred ++ [e.ref] }))) := by
  unfold processEntry at h
  cases hg : heapGet c.st.heap e.ref with
  | none =>
      rw [hg] at h
      exact Or.inl ⟨rfl, (Except.ok.inj h).symm⟩
  | some task =>
      rw [hg] at h
      refine Or.inr ⟨task, rfl, ?_⟩
      by_cases hi : task.interval = true
      · simp only [hi, if_true] at h
        by_cases hen : (task.enabled && !task.removed) = true
        · simp only [hen, if_true] at h
          have hflags := hen
          rw [Bool.and_eq_true, Bool.not_eq_true'] at hflags
          exact Or.inl ⟨hi, hflags.1, hflags.2, (Except.ok.inj h).symm⟩
        · simp only [hen, if_false] at h
          cases hnt : task.get_new_time C.cron now with
          | ok nt =>
              rw [hnt] at h
              refine Or.inr (Or.inl ⟨hi, ?_, nt, rfl, (Except.ok.inj h).symm⟩)
              intro ⟨h1, h2⟩
              exact hen (by rw [Bool.and_eq_true, Bool.not_eq_true']; exact ⟨h1, h2⟩)
          | error err =>
              rw [hnt] at h
              cases h
      · have hi2 : task.interval = false := by
          cases hb : task.interval
          · rfl
          · exact absurd hb hi
        simp only [hi2, Bool.false_eq_true, if_false] at h
        by_cases hr : task.recur = true
        · simp only [hr, if_true] at h
          cases hnt : task.get_new_time C.cron now with
          | ok nt =>
              rw [hnt] at h
              exact Or.inr (Or.inr (Or.inl ⟨hi2, hr, nt, rfl, (Except.ok.inj h).symm⟩))
          | error err =>
              rw [hnt] at h
              cases h
        · have hr2 : task.recur = false := by
            cases hb : task.recur
            · rfl
            · exact absurd hb hr
          simp only [hr2, Bool.false_eq_true, if_false] at h
          exact Or.inr (Or.inr (Or.inr ⟨hi2, hr2, (Except.ok.inj h).symm⟩))

theorem pushIf_st (task : Task) (e : Entry) (c : SweepCtx) :
    (pushIf task e c).st = c.st := by
  unfold pushIf
  split <;> rfl

theorem pushIf_recurred (task : Task) (e : Entry) (c : SweepCtx) :
    (pushIf task e c).recurred = c.recurred := by
  unfold pushIf
  split <;> rfl

theorem pushIf_nonRecurred (task : Task) (e : Entry) (c : SweepCtx) :
    (pushIf task e c).nonRecurred = c.nonRecurred := by
  unfold pushIf
  split <;> rfl

theorem pushIf_wrappers (task : Task) (e : Entry) (c : SweepCtx) :
    (pushIf task e c).wrappers = c.wrappers := by
  unfold pushIf
  split <;> rfl

theorem pushIf_pushes_src (task : Task) (e : Entry) (c : SweepCtx) (r : Nat)
    (h : r ∈ (pushIf task e c).pushes) :
    r ∈ c.pushes ∨ (r = e.ref ∧ task.enabled = true ∧ task.removed = false) := by
  unfold pushIf at h
  by_cases hen : (task.enabled && !task.removed) = true
  · simp only [hen, if_true, List.mem_append, List.mem_singleton] at h
    rw [Bool.and_eq_true, Bool.not_eq_true'] at hen
    rcases h with h | h
    · exact Or.inl h
    · exact Or.inr ⟨h, hen.1, hen.2⟩
  · simp only [hen, if_false] at h
    exact Or.inl h

theorem pushIf_pushes_mono (task : Task) (e : Entry) (c : SweepCtx) (r : Nat)
    (h : r ∈ c.pushes) : r ∈ (pushIf task e c).pushes := by
  unfold pushIf
  split
  · simp [List.mem_append, h]
  · exact h

theorem processEntry_frame (C : Collab) (now : TimePoint) (e : Entry)
    (c c1 : SweepCtx) (h : processEntry C now e c = .ok c1) :
    c1.st.heap = c.st.heap ∧ c1.st.tasks = c.st.tasks := by
  rcases processEntry_cases C now e c c1 h with ⟨_, rfl⟩ | ⟨task, hg, hcase⟩
  · exact ⟨rfl, rfl⟩
  · rcases hcase with ⟨_, _, _, rfl⟩ | ⟨_, _, nt, _, rfl⟩ | ⟨_, _, nt, _, rfl⟩ | ⟨_, _, rfl⟩
    · exact ⟨rfl, rfl⟩
    · exact ⟨rfl, rfl⟩
    · constructor <;> simp [pushIf_st]
    · constructor <;> simp [pushIf_st]

theorem sweepList_cons_ok (C : Collab) (now : TimePoint) (e : Entry)
    (es : List Entry) (c c2 : SweepCtx)
    (h : sweepList C now (e :: es) c = .ok c2) :
    ∃ c1, processEntry C now e c = .ok c1 ∧ sweepList C now es c1 = .ok c2 := by
  unfold sweepList at h
  cases hp : processEntry C now e c with
  | ok c1 =>
      rw [hp] at h
      exact ⟨c1, rfl, h⟩
  | error err =>
      rw [hp] at h
      cases h

theorem sweepList_frame (C : Collab) (now : TimePoint) (l : List Entry)
    (c c2 : SweepCtx) (h : sweepList C now l c = .ok c2) :
    c2.st.heap = c.st.heap ∧ c2.st.tasks = c.st.tasks := by
  induction l generalizing c with
  | nil =>
      unfold sweepList at h
      cases h
      exact ⟨rfl, rfl⟩
  | cons e es ih =>
      obtain ⟨c1, hp, hrest⟩ := sweepList_cons_ok C now e es c c2 h
      have h1 := processEntry_frame C now e c c1 hp
      have h2 := ih c1 hrest
      exact ⟨h2.1.trans h1.1, h2.2.trans h1.2⟩

theorem processEntry_mono (C : Collab) (now : TimePoint) (e : Entry)
    (c c1 : SweepCtx) (h : processEntry C now e c = .ok c1) :
    (∀ p, p ∈ c.recurred → p ∈ c1.recurred) ∧
    (∀ w, w ∈ c.wrappers → w ∈ c1.wrappers) ∧
    (∀ x, x ∈ c.st.completed → x ∈ c1.st.completed) ∧
    (∀ r, r ∈ c.pushes → r ∈ c1.pushes) ∧
    (∀ r, r ∈ c.nonRecurred → r ∈ c1.nonRecurred) := by
  rcases processEntry_cases C now e c c1 h with ⟨_, rfl⟩ | ⟨task, hg, hcase⟩
  · exact ⟨fun _ h => h, fun _ h => h, fun _ h => h, fun _ h => h, fun _ h => h⟩
  · rcases hcase with ⟨_, _, _, rfl⟩ | ⟨_, _, nt, _, rfl⟩ | ⟨_, _, nt, _, rfl⟩ | ⟨_, _, rfl⟩
    · exact ⟨fun _ h => h, fun w hw => by simp [holdInterval, List.mem_append, hw],
        fun x hx => by simp [holdInterval]; exact mem_mmInsertBy.mpr (Or.inr hx),
        fun _ h => h, fun _ h => h⟩
    · exact ⟨fun p hp => mem_mmInsertBy.mpr (Or.inr hp), fun _ h => h,
        fun _ h => h, fun _ h => h, fun _ h => h⟩
    · refine ⟨fun p hp => ?_, ?_, ?_, fun r hr => pushIf_pushes_mono task e c r hr, ?_⟩
      · simp only []
        exact mem_mmInsertBy.mpr (Or.inr (by rw [pushIf_recurred]; exact hp))
      · intro w hw
        simp only []
        rw [pushIf_wrappers]
        exact hw
      · intro x hx
        simp only []
        rw [pushIf_st]
        exact hx
      · intro r hr
        simp only []
        rw [pushIf_nonRecurred]
        exact hr
    · refine ⟨fun p hp => by rw [pushIf_recurred]; exact hp,
        fun w hw => by rw [pushIf_wrappers]; exact hw,
        fun x hx => by rw [pushIf_st]; exact hx,
        fun r hr => pushIf_pushes_mono task e c r hr,
        fun r hr => by
          simp only [List.mem_append, pushIf_nonRecurred]
          exact Or.inl hr⟩

theorem sweepList_mono (C : Collab) (now : TimePoint) (l : List Entry)
    (c c2 : SweepCtx) (h : sweepList C now l c = .ok c2) :
    (∀ p, p ∈ c.recurred → p ∈ c2.recurred) ∧
    (∀ w, w ∈ c.wrappers → w ∈ c2.wrappers) ∧
    (∀ x, x ∈ c.st.completed → x ∈ c2.st.completed) ∧
    (∀ r, r ∈ c.pushes → r ∈ c2.pushes) ∧
    (∀ r, r ∈ c.nonRecurred → r ∈ c2.nonRecurred) := by
  induction l generalizing c with
  | nil =>
      unfold sweepList at h
      cases h
      exact ⟨fun _ h => h, fun _ h => h, fun _ h => h, fun _ h => h, fun _ h => h⟩
  | cons e es ih =>
      obtain ⟨c1, hp, hrest⟩ := sweepList_cons_ok C now e es c c2 h
      have h1 := processEntry_mono C now e c c1 hp
      have h2 := ih c1 hrest
      exact ⟨fun p hp2 => h2.1 p (h1.1 p hp2),
             fun w hw => h2.2.1 w (h1.2.1 w hw),
             fun x hx => h2.2.2.1 x (h1.2.2.1 x hx),
             fun r hr => h2.2.2.2.1 r (h1.2.2.2.1 r hr),
             fun r hr => h2.2.2.2.2 r (h1.2.2.2.2 r hr)⟩

theorem sweepList_recurred_add (C : Collab) (now : TimePoint) (l : List Entry)
    (c c2 : SweepCtx) (e : Entry) (task : Task) (nt : TimePoint)
    (h : sweepList C now l c = .ok c2) (he : e ∈ l)
    (hg : heapGet c.st.heap e.ref = some task)
    (hcond : (task.interval = true ∧ ¬(task.enabled = true ∧ task.removed = false)) ∨
             (task.interval = false ∧ task.recur = true))
    (hnt : task.get_new_time C.cron now = .ok nt) :
    (nt, e.ref) ∈ c2.recurred := by
  induction l generalizing c with
  | nil => cases he
  | cons e0 es ih =>
      obtain ⟨c1, hp, hrest⟩ := sweepList_cons_ok C now e0 es c c2 h
      rcases List.mem_cons.mp he with rfl | he2
      · rcases processEntry_cases C now e c c1 hp with ⟨hgn, _⟩ | ⟨task2, hg2, hcase⟩
        · rw [hg] at hgn
          cases hgn
        · rw [hg] at hg2
          injection hg2 with htask
          subst htask
          rcases hcase with ⟨hi, hen, hrm, rfl⟩ | ⟨hi, hnen, nt2, hnt2, rfl⟩ |
            ⟨hi, hr, nt2, hnt2, rfl⟩ | ⟨hi, hr, rfl⟩
          · rcases hcond with ⟨_, hne⟩ | ⟨hif, _⟩
            · exact absurd ⟨hen, hrm⟩ hne
            · rw [hi] at hif
              cases hif
          · rw [hnt] at hnt2
            injection hnt2 with hnteq
            subst hnteq
            exact (sweepList_mono C now es _ c2 hrest).1 (nt, e.ref)
              (mem_mmInsertBy.mpr (Or.inl rfl))
          · rw [hnt] at hnt2
            injection hnt2 with hnteq
            subst hnteq
            exact (sweepList_mono C now es _ c2 hrest).1 (nt, e.ref)
              (mem_mmInsertBy.mpr (Or.inl rfl))
          · rcases hcond with ⟨hif, _⟩ | ⟨_, hre⟩
            · rw [hi] at hif
              cases hif
            · rw [hr] at hre
              cases hre
      · have hheap := (processEntry_frame C now e0 c c1 hp).1
        exact ih c1 hrest he2 (by rw [hheap]; exact hg)

theorem sweepList_hold_add (C : Collab) (now : TimePoint) (l : List Entry)
    (c c2 : SweepCtx) (e : Entry) (task : Task)
    (h : sweepList C now l c = .ok c2) (he : e ∈ l)
    (hg : heapGet c.st.heap e.ref = some task)
    (hi : task.interval = true) (hen : task.enabled = true)
    (hrm : task.removed = false) :
    ∃ heid, (e.ref, heid) ∈ c2.wrappers ∧
      (⟨heid, e.time, e.ref⟩ : Entry) ∈ c2.st.completed := by
  induction l generalizing c with
  | nil => cases he
  | cons e0 es ih =>
      obtain ⟨c1, hp, hrest⟩ := sweepList_cons_ok C now e0 es c c2 h
      rcases List.mem_cons.mp he with rfl | he2
      · rcases processEntry_cases C now e c c1 hp with ⟨hgn, _⟩ | ⟨task2, hg2, hcase⟩
        · rw [hg] at hgn
          cases hgn
        · rw [hg] at hg2
          injection hg2 with htask
          subst htask
          rcases hcase with ⟨_, _, _, rfl⟩ | ⟨_, hnen, nt2, hnt2, rfl⟩ |
            ⟨hif, _, nt2, hnt2, rfl⟩ | ⟨hif, _, rfl⟩
          · refine ⟨c.st.nextEid, ?_, ?_⟩
            · exact (sweepList_mono C now es _ c2 hrest).2.1 (e.ref, c.st.nextEid)
                (by simp [holdInterval])
            · exact (sweepList_mono C now es _ c2 hrest).2.2.1 ⟨c.st.nextEid, e.time, e.ref⟩
                (by simp only [holdInterval]; exact mem_mmInsertBy.mpr (Or.inl rfl))
          · exact absurd ⟨hen, hrm⟩ hnen
          · rw [hi] at hif
            cases hif
          · rw [hi] at hif
            cases hif
      · have hheap := (processEntry_frame C now e0 c c1 hp).1
        exact ih c1 hrest he2 (by rw [hheap]; exact hg)

theorem readdOne_frame (st : SchedState) (p : TimePoint × Nat) :
    (readdOne st p).heap = st.heap ∧ (readdOne st p).completed = st.completed := by
  unfold readdOne
  cases hg : heapGet st.heap p.2 with
  | none => exact ⟨rfl, rfl⟩
  | some task =>
      by_cases hrm : task.removed = true
      · simp [hrm]
      · simp [hrm]

theorem readdRecurred_frame (l : List (TimePoint × Nat)) (st : SchedState) :
    (readdRecurred st l).heap = st.heap ∧ (readdRecurred st l).completed = st.completed := by
  induction l generalizing st with
  | nil => exact ⟨rfl, rfl⟩
  | cons p ps ih =>
      have h1 := readdOne_frame st p
      have h2 := ih (readdOne st p)
      exact ⟨h2.1.trans h1.1, h2.2.trans h1.2⟩

theorem readdOne_tasks_mono (st : SchedState) (p : TimePoint × Nat) (x : Entry)
    (h : x ∈ st.tasks) : x ∈ (readdOne st p).tasks := by
  unfold readdOne
  cases hg : heapGet st.heap p.2 with
  | none => exact h
  | some task =>
      by_cases hrm : task.removed = true
      · simp only [hrm, if_true]
        exact h
      · simp only [hrm, if_false]
        exact mem_mmInsertBy.mpr (Or.inr h)

theorem readdRecurred_tasks_mono (l : List (TimePoint × Nat)) (st : SchedState)
    (x : Entry) (h : x ∈ st.tasks) : x ∈ (readdRecurred st l).tasks := by
  induction l generalizing st with
  | nil => exact h
  | cons p ps ih => exact ih (readdOne st p) (readdOne_tasks_mono st p x h)

theorem readdRecurred_tasks_add (l : List (TimePoint × Nat)) (st : SchedState)
    (nt : TimePoint) (r : Nat) (task : Task)
    (hmem : (nt, r) ∈ l) (hg : heapGet st.heap r = some task)
    (hrm : task.removed = false) :
    ∃ eid, (⟨eid, nt, r⟩ : Entry) ∈ (readdRecurred st l).tasks := by
  induction l generalizing st with
  | nil => cases hmem
  | cons p ps ih =>
      rcases List.mem_cons.mp hmem with rfl | h2
      · refine ⟨st.nextEid, ?_⟩
        have hstep : (⟨st.nextEid, nt, r⟩ : Entry) ∈ (readdOne st (nt, r)).tasks := by
          unfold readdOne
          rw [hg]
          simp only [hrm, Bool.false_eq_true, if_false]
          exact mem_mmInsertBy.mpr (Or.inl rfl)
        exact readdRecurred_tasks_mono ps (readdOne st (nt, r)) _ hstep
      · have hheap := (readdOne_frame st p).1
        exact ih (readdOne st p) h2 (by rw [hheap]; exact hg)

theorem eraseNonRecurred_frame (l : List Nat) (st : SchedState) :
    (eraseNonRecurred st l).tasks = st.tasks ∧
    (eraseNonRecurred st l).completed = st.completed ∧
    (eraseNonRecurred st l).heap = st.heap := by
  induction l generalizing st with
  | nil => exact ⟨rfl, rfl, rfl⟩
  | cons r rs ih =>
      have h1 : (eraseNonRecurredOne st r).tasks = st.tasks ∧
          (eraseNonRecurredOne st r).completed = st.completed ∧
          (eraseNonRecurredOne st r).heap = st.heap := by
        unfold eraseNonRecurredOne
        cases heapGet st.heap r
        · exact ⟨rfl, rfl, rfl⟩
        · exact ⟨rfl, rfl, rfl⟩
      have h2 := ih (eraseNonRecurredOne st r)
      exact ⟨h2.1.trans h1.1, h2.2.1.trans h1.2.1, h2.2.2.trans h1.2.2⟩

theorem manage_tasks_ok_decomp (C : Collab) (now : TimePoint) (s : SchedState)
    (out : SchedState × List Nat × List (Nat × Nat))
    (h : manage_tasks C now s = .ok out) (hne : firedOf now s ≠ []) :
    ∃ c, sweepList C now (firedOf now s) ⟨s, [], [], [], []⟩ = .ok c ∧
      out.1 = eraseNonRecurred
        (readdRecurred { c.st with tasks := s.tasks.dropWhile (fun e => e.time ≤ now) }
          c.recurred) c.nonRecurred ∧
      out.2.1 = c.pushes ∧ out.2.2 = c.wrappers := by
  unfold manage_tasks at h
  rw [if_neg (by simpa using hne)] at h
  cases hs : sweepList C now (firedOf now s) ⟨s, [], [], [], []⟩ with
  | error err =>
      rw [hs] at h
      cases h
  | ok c =>
      rw [hs] at h
      refine ⟨c, rfl, ?_⟩
      injection h with hout
      subst hout
      exact ⟨rfl, rfl, rfl⟩

/-- A state holding one "every" task of period 10 due at instant 10: the
result of `every("a", 10, f)` on a fresh scheduler at instant 0. -/
def c1EveryState : SchedState :=
  { heap := [(0, mkEveryTask "a" "every: " 10 false)]
    tasks := [⟨0, 10, 0⟩]
    completed := []
    tasksMap := [("a", 0)]
    interrupted := true
    nextEid := 1
    nextRef := 1 }

/-- The state after sweeping `c1EveryState` at instant 15: the task was
re-inserted at 25. -/
def c1EveryStateAfter : SchedState :=
  { heap := [(0, mkEveryTask "a" "every: " 10 false)]
    tasks := [⟨1, 25, 0⟩]
    completed := []
    tasksMap := [("a", 1)]
    interrupted := true
    nextEid := 2
    nextRef := 1 }

/-- C1 is false on the code: an "every" task with period 10, due at
instant 10, swept at instant 15 (the sweep ran 5 ticks late), is
re-inserted due at `Clock::now() + period = 25` — not at the
due-instant-based `10 + 10 = 20` the claim requires.  The re-inserted
instant depends on when the sweep actually runs. -/
theorem c1_counterexample_drift :
    manage_tasks trivialCollab 15 c1EveryState = .ok (c1EveryStateAfter, [0], []) ∧
    c1EveryStateAfter.tasks.map Entry.time = [25] ∧
    ¬ ((10 + 10 : Int) ∈ c1EveryStateAfter.tasks.map Entry.time) := by
  refine ⟨by decide, by decide, by decide⟩

/-- C1 (amended): for every recurring overlap-permitted task ("every" or
cron, `interval = false`) that fires in a sweep and is not marked removed,
the next due instant is `get_new_time` evaluated at the sweep's wall-clock
instant: sweep-time plus the configured period for "every", the cron
successor of sweep-time for cron.  The re-inserted instant therefore
depends on when the sweep runs (cadence drifts by the wake latency); it is
not computed from the previous due instant. -/
theorem c1_amended_reschedule_from_sweep_time (C : Collab) (now : TimePoint)
    (s : SchedState) (out : SchedState × List Nat × List (Nat × Nat))
    (e : Entry) (t : Task) (nt : TimePoint)
    (hok : manage_tasks C now s = .ok out)
    (he : e ∈ firedOf now s)
    (hg : heapGet s.heap e.ref = some t)
    (hrec : t.recur = true) (hint : t.interval = false) (hrm : t.removed = false)
    (hnt : t.get_new_time C.cron now = .ok nt) :
    (∃ eid, (⟨eid, nt, e.ref⟩ : Entry) ∈ out.1.tasks) ∧
    (∀ p, t.kind = .everyTask p → nt = now + p) ∧
    (∀ exp, t.kind = .cronTask exp → nt = C.cron.next exp now) := by
  have hne : firedOf now s ≠ [] := by
    intro hnil
    rw [hnil] at he
    cases he
  obtain ⟨c, hsw, hout, _, _⟩ := manage_tasks_ok_decomp C now s out hok hne
  have hrecmem : (nt, e.ref) ∈ c.recurred :=
    sweepList_recurred_add C now (firedOf now s) ⟨s, [], [], [], []⟩ c e t nt hsw he hg
      (Or.inr ⟨hint, hrec⟩) hnt
  have hheap : c.st.heap = s.heap := (sweepList_frame C now _ _ c hsw).1
  have hg1 : heapGet ({ c.st with tasks := s.tasks.dropWhile (fun e => e.time ≤ now) } : SchedState).heap e.ref = some t := by
    simpa [hheap] using hg
  obtain ⟨eid, hmem⟩ :=
    readdRecurred_tasks_add c.recurred _ nt e.ref t hrecmem hg1 hrm
  refine ⟨⟨eid, ?_⟩, ?_, ?_⟩
  · rw [hout, (eraseNonRecurred_frame c.nonRecurred _).1]
    exact hmem
  · intro p hk
    have hval : t.get_new_time C.cron now = .ok (now + p) := by
      simp [Task.get_new_time, hk]
    rw [hnt] at hval
    exact Except.ok.inj hval
  · intro exp hk
    have hval := hnt
    have hshape : t.get_new_time C.cron now =
        (if C.cron.valid exp = true then Except.ok (C.cron.next exp now)
         else Except.error SchedError.badCronExpression) := by
      unfold Task.get_new_time
      rw [hk]
    rw [hshape] at hval
    by_cases hv : C.cron.valid exp = true
    · rw [if_pos hv] at hval
      exact (Except.ok.inj hval).symm
    · rw [if_neg hv] at hval
      cases hval

/-- Witness for the amended C1: the task of `c1EveryState` (period 10, due
at 10) swept at 15 is found re-inserted at `15 + 10 = 25`. -/
theorem c1_amended_reschedule_from_sweep_time_witness :
    ∃ eid, (⟨eid, 25, 0⟩ : Entry) ∈ c1EveryStateAfter.tasks :=
  (c1_amended_reschedule_from_sweep_time trivialCollab 15 c1EveryState
    (c1EveryStateAfter, [0], []) ⟨0, 10, 0⟩ (mkEveryTask "a" "every: " 10 false) 25
    (by decide) (by decide) (by decide) rfl rfl rfl (by decide)).1

theorem takeWhile_eq_filter_of_sorted (l : List Entry) (now : TimePoint)
    (h : l.Pairwise (fun a b => a.time ≤ b.time)) :
    l.takeWhile (fun e => e.time ≤ now) = l.filter (fun e => e.time ≤ now) := by
  induction l with
  | nil => rfl
  | cons a rest ih =>
      rcases List.pairwise_cons.mp h with ⟨ha, hrest⟩
      by_cases hle : a.time ≤ now
      · simp only [List.takeWhile_cons, List.filter_cons, hle, decide_True, if_true]
        rw [ih hrest]
      · simp only [List.takeWhile_cons, List.filter_cons, hle, decide_False, if_false]
        refine (List.filter_eq_nil_iff.mpr ?_).symm
        intro b hb
        have hab := ha b hb
        simp only [decide_eq_true_eq]
        exact fun hbn => hle (le_trans hab hbn)

/-- C5: one `manage_tasks` sweep fires exactly the store entries whose due
instant is at or before now at sweep start (on the sorted store the
`upper_bound` segment is exactly the `≤ now` entries), in ascending
due-instant order with ties in stored (insertion) order — the fired range
is a contiguous initial segment of the store, taken in store order; no
entry fires twice in the sweep (the fired node identities are distinct);
and entries due later are left untouched, remaining in the store after the
sweep. -/
theorem c5_sweep_fires_exactly_due (C : Collab) (now : TimePoint)
    (s : SchedState) (out : SchedState × List Nat × List (Nat × Nat))
    (hsorted : s.tasks.Pairwise (fun a b => a.time ≤ b.time))
    (hnodup : (s.tasks.map Entry.eid).Nodup) :
    firedOf now s = s.tasks.filter (fun e => e.time ≤ now) ∧
    firedOf now s ++ s.tasks.dropWhile (fun e => e.time ≤ now) = s.tasks ∧
    (firedOf now s).Pairwise (fun a b => a.time ≤ b.time) ∧
    ((firedOf now s).map Entry.eid).Nodup ∧
    (∀ e ∈ firedOf now s, e.time ≤ now) ∧
    (manage_tasks C now s = .ok out →
       ∀ e ∈ s.tasks, ¬ e.time ≤ now → e ∈ out.1.tasks) := by
  have hsub : (firedOf now s).Sublist s.tasks := List.takeWhile_sublist _
  refine ⟨takeWhile_eq_filter_of_sorted s.tasks now hsorted,
    List.takeWhile_append_dropWhile _ _,
    List.Pairwise.sublist hsub hsorted,
    List.Nodup.sublist (List.Sublist.map Entry.eid hsub) hnodup,
    ?_, ?_⟩
  · intro e he
    have := List.mem_takeWhile_imp (l := s.tasks) (x := e) he
    simpa using this
  · intro hok e he hlate
    have hdrop : e ∈ s.tasks.dropWhile (fun e => e.time ≤ now) := by
      have hsplit := List.takeWhile_append_dropWhile
        (fun e : Entry => decide (e.time ≤ now)) s.tasks
      have : e ∈ s.tasks.takeWhile (fun e : Entry => decide (e.time ≤ now)) ∨
          e ∈ s.tasks.dropWhile (fun e : Entry => decide (e.time ≤ now)) := by
        rw [← List.mem_append, hsplit]
        exact he
      rcases this with hin | hin
      · exact absurd (by simpa using List.mem_takeWhile_imp hin) hlate
      · exact hin
    by_cases hne : firedOf now s = []
    · have : manage_tasks C now s = .ok (s, [], []) := by
        unfold manage_tasks
        rw [if_pos (by simpa using hne)]
      rw [this] at hok
      injection hok with hout
      rw [← hout]
      exact he
    · obtain ⟨c, hsw, hout, _, _⟩ := manage_tasks_ok_decomp C now s out hok hne
      rw [hout, (eraseNonRecurred_frame c.nonRecurred _).1]
      exact readdRecurred_tasks_mono c.recurred _ e hdrop

/-- Witness for C5 on a two-entry store (due at 10 and 30, swept at 15):
the fired range is exactly the entry due at 10; the entry due at 30 is
untouched and survives the sweep. -/
def c5TwoState : SchedState :=
  { heap := [(0, mkInTask "a" "t"), (1, mkInTask "b" "t2")]
    tasks := [⟨0, 10, 0⟩, ⟨1, 30, 1⟩]
    completed := []
    tasksMap := [("a", 0), ("b", 1)]
    interrupted := true
    nextEid := 2
    nextRef := 2 }

/-- Witness for C5 applied to `c5TwoState` at sweep time 15. -/
theorem c5_sweep_fires_exactly_due_witness :
    firedOf 15 c5TwoState = [⟨0, 10, 0⟩] ∧
    (⟨1, 30, 1⟩ : Entry) ∈ (manage_tasks trivialCollab 15 c5TwoState).toOption.elim [] (fun o => o.1.tasks) := by
  have h := c5_sweep_fires_exactly_due trivialCollab 15 c5TwoState
    ({ heap := c5TwoState.heap
       tasks := [⟨1, 30, 1⟩]
       completed := []
       tasksMap := [("b", 1)]
       interrupted := true
       nextEid := 2
       nextRef := 2 }, [0], [])
    (by decide) (by decide)
  refine ⟨by decide, ?_⟩
  have hmem := h.2.2.2.2.2 (by decide) ⟨1, 30, 1⟩ (by decide) (by decide)
  revert hmem
  decide

theorem processEntry_completed_src (C : Collab) (now : TimePoint) (e : Entry)
    (c c1 : SweepCtx) (h : processEntry C now e c = .ok c1) (x : Entry)
    (hx : x ∈ c1.st.completed) :
    x ∈ c.st.completed ∨ (x.ref = e.ref ∧ ∃ tk, heapGet c.st.heap e.ref = some tk ∧
      tk.interval = true ∧ tk.enabled = true ∧ tk.removed = false) := by
  rcases processEntry_cases C now e c c1 h with ⟨_, rfl⟩ | ⟨task, hg, hcase⟩
  · exact Or.inl hx
  · rcases hcase with ⟨hi, hen, hrm, rfl⟩ | ⟨_, _, nt, _, rfl⟩ | ⟨_, _, nt, _, rfl⟩ | ⟨_, _, rfl⟩
    · simp only [holdInterval] at hx
      rcases mem_mmInsertBy.mp hx with rfl | hx2
      · exact Or.inr ⟨rfl, task, hg, hi, hen, hrm⟩
      · exact Or.inl hx2
    · exact Or.inl hx
    · rw [show ({ pushIf task e c with
          recurred := mmInsertBy Prod.fst (nt, e.ref) (pushIf task e c).recurred } : SweepCtx).st.completed
          = c.st.completed from by rw [pushIf_st]] at hx
      exact Or.inl hx
    · rw [show ({ pushIf task e c with
          nonRecurred := (pushIf task e c).nonRecurred ++ [e.ref] } : SweepCtx).st.completed
          = c.st.completed from by rw [pushIf_st]] at hx
      exact Or.inl hx

theorem processEntry_pushes_src (C : Collab) (now : TimePoint) (e : Entry)
    (c c1 : SweepCtx) (h : processEntry C now e c = .ok c1) (r : Nat)
    (hr : r ∈ c1.pushes) :
    r ∈ c.pushes ∨ (r = e.ref ∧ ∃ tk, heapGet c.st.heap e.ref = some tk ∧
      tk.interval = false ∧ tk.enabled = true ∧ tk.removed = false) := by
  rcases processEntry_cases C now e c c1 h with ⟨_, rfl⟩ | ⟨task, hg, hcase⟩
  · exact Or.inl hr
  · rcases hcase with ⟨_, _, _, rfl⟩ | ⟨_, _, nt, _, rfl⟩ | ⟨hi, _, nt, _, rfl⟩ | ⟨hi, _, rfl⟩
    · exact Or.inl hr
    · exact Or.inl hr
    · rcases pushIf_pushes_src task e c r hr with h2 | ⟨hre, hen, hrm⟩
      · exact Or.inl h2
      · exact Or.inr ⟨hre, task, hg, hi, hen, hrm⟩
    · rcases pushIf_pushes_src task e c r hr with h2 | ⟨hre, hen, hrm⟩
      · exact Or.inl h2
      · exact Or.inr ⟨hre, task, hg, hi, hen, hrm⟩

theorem processEntry_wrappers_src (C : Collab) (now : TimePoint) (e : Entry)
    (c c1 : SweepCtx) (h : processEntry C now e c = .ok c1) (w : Nat × Nat)
    (hw : w ∈ c1.wrappers) :
    w ∈ c.wrappers ∨ (w.1 = e.ref ∧ ∃ tk, heapGet c.st.heap e.ref = some tk ∧
      tk.interval = true ∧ tk.enabled = true ∧ tk.removed = false) := by
  rcases processEntry_cases C now e c c1 h with ⟨_, rfl⟩ | ⟨task, hg, hcase⟩
  · exact Or.inl hw
  · rcases hcase with ⟨hi, hen, hrm, rfl⟩ | ⟨_, _, nt, _, rfl⟩ | ⟨_, _, nt, _, rfl⟩ | ⟨_, _, rfl⟩
    · simp only [holdInterval, List.mem_append, List.mem_singleton] at hw
      rcases hw with hw | rfl
      · exact Or.inl hw
      · exact Or.inr ⟨rfl, task, hg, hi, hen, hrm⟩
    · exact Or.inl hw
    · rw [show ({ pushIf task e c with
          recurred := mmInsertBy Prod.fst (nt, e.ref) (pushIf task e c).recurred } : SweepCtx).wrappers
          = c.wrappers from by rw [pushIf_wrappers]] at hw
      exact Or.inl hw
    · rw [show ({ pushIf task e c with
          nonRecurred := (pushIf task e c).nonRecurred ++ [e.ref] } : SweepCtx).wrappers
          = c.wrappers from by rw [pushIf_wrappers]] at hw
      exact Or.inl hw

theorem processEntry_recurred_src (C : Collab) (now : TimePoint) (e : Entry)
    (c c1 : SweepCtx) (h : processEntry C now e c = .ok c1) (p : TimePoint × Nat)
    (hp : p ∈ c1.recurred) :
    p ∈ c.recurred ∨ (p.2 = e.ref ∧ ∃ tk, heapGet c.st.heap e.ref = some tk ∧
      ((tk.interval = true ∧ ¬(tk.enabled = true ∧ tk.removed = false)) ∨
       (tk.interval = false ∧ tk.recur = true))) := by
  rcases processEntry_cases C now e c c1 h with ⟨_, rfl⟩ | ⟨task, hg, hcase⟩
  · exact Or.inl hp
  · rcases hcase with ⟨_, _, _, rfl⟩ | ⟨hi, hnen, nt, _, rfl⟩ | ⟨hi, hr, nt, _, rfl⟩ | ⟨_, _, rfl⟩
    · exact Or.inl hp
    · rcases mem_mmInsertBy.mp hp with rfl | hp2
      · exact Or.inr ⟨rfl, task, hg, Or.inl ⟨hi, hnen⟩⟩
      · exact Or.inl hp2
    · simp only [] at hp
      rcases mem_mmInsertBy.mp hp with rfl | hp2
      · exact Or.inr ⟨rfl, task, hg, Or.inr ⟨hi, hr⟩⟩
      · rw [pushIf_recurred] at hp2
        exact Or.inl hp2
    · rw [show ({ pushIf task e c with
          nonRecurred := (pushIf task e c).nonRecurred ++ [e.ref] } : SweepCtx).recurred
          = c.recurred from by rw [pushIf_recurred]] at hp
      exact Or.inl hp

theorem processEntry_nonRecurred_src (C : Collab) (now : TimePoint) (e : Entry)
    (c c1 : SweepCtx) (h : processEntry C now e c = .ok c1) (r : Nat)
    (hr : r ∈ c1.nonRecurred) :
    r ∈ c.nonRecurred ∨ (r = e.ref ∧ ∃ tk, heapGet c.st.heap e.ref = some tk ∧
      tk.interval = false ∧ tk.recur = false) := by
  rcases processEntry_cases C now e c c1 h with ⟨_, rfl⟩ | ⟨task, hg, hcase⟩
  · exact Or.inl hr
  · rcases hcase with ⟨_, _, _, rfl⟩ | ⟨_, _, nt, _, rfl⟩ | ⟨_, _, nt, _, rfl⟩ | ⟨hi, hre, rfl⟩
    · exact Or.inl hr
    · exact Or.inl hr
    · rw [show ({ pushIf task e c with
          recurred := mmInsertBy Prod.fst (nt, e.ref) (pushIf task e c).recurred } : SweepCtx).nonRecurred
          = c.nonRecurred from by rw [pushIf_nonRecurred]] at hr
      exact Or.inl hr
    · simp only [List.mem_append, List.mem_singleton, pushIf_nonRecurred] at hr
      rcases hr with hr | rfl
      · exact Or.inl hr
      · exact Or.inr ⟨rfl, task, hg, hi, hre⟩

theorem sweepList_completed_src (C : Collab) (now : TimePoint) (l : List Entry)
    (c c2 : SweepCtx) (h : sweepList C now l c = .ok c2) (x : Entry)
    (hx : x ∈ c2.st.completed) :
    x ∈ c.st.completed ∨ ∃ e' ∈ l, x.ref = e'.ref ∧
      ∃ tk, heapGet c.st.heap e'.ref = some tk ∧
        tk.interval = true ∧ tk.enabled = true ∧ tk.removed = false := by
  induction l generalizing c with
  | nil =>
      unfold sweepList at h
      cases h
      exact Or.inl hx
  | cons e0 es ih =>
      obtain ⟨c1, hp, hrest⟩ := sweepList_cons_ok C now e0 es c c2 h
      have hheap := (processEntry_frame C now e0 c c1 hp).1
      rcases ih c1 hrest with hx1 | ⟨e', he', hxr, tk, hg, hflags⟩
      · rcases processEntry_completed_src C now e0 c c1 hp x hx1 with hx0 | ⟨hxr, tk, hg, hflags⟩
        · exact Or.inl hx0
        · exact Or.inr ⟨e0, List.mem_cons_self _ _, hxr, tk, hg, hflags⟩
      · exact Or.inr ⟨e', List.mem_cons_of_mem _ he', hxr, tk, by rw [← hheap]; exact hg, hflags⟩

theorem sweepList_pushes_src (C : Collab) (now : TimePoint) (l : List Entry)
    (c c2 : SweepCtx) (h : sweepList C now l c = .ok c2) (r : Nat)
    (hr : r ∈ c2.pushes) :
    r ∈ c.pushes ∨ ∃ e' ∈ l, r = e'.ref ∧
      ∃ tk, heapGet c.st.heap e'.ref = some tk ∧
        tk.interval = false ∧ tk.enabled = true ∧ tk.removed = false := by
  induction l generalizing c with
  | nil =>
      unfold sweepList at h
      cases h
      exact Or.inl hr
  | cons e0 es ih =>
      obtain ⟨c1, hp, hrest⟩ := sweepList_cons_ok C now e0 es c c2 h
      have hheap := (processEntry_frame C now e0 c c1 hp).1
      rcases ih c1 hrest with hr1 | ⟨e', he', hxr, tk, hg, hflags⟩
      · rcases processEntry_pushes_src C now e0 c c1 hp r hr1 with hr0 | ⟨hxr, tk, hg, hflags⟩
        · exact Or.inl hr0
        · exact Or.inr ⟨e0, List.mem_cons_self _ _, hxr, tk, hg, hflags⟩
      · exact Or.inr ⟨e', List.mem_cons_of_mem _ he', hxr, tk, by rw [← hheap]; exact hg, hflags⟩

theorem sweepList_wrappers_src (C : Collab) (now : TimePoint) (l : List Entry)
    (c c2 : SweepCtx) (h : sweepList C now l c = .ok c2) (w : Nat × Nat)
    (hw : w ∈ c2.wrappers) :
    w ∈ c.wrappers ∨ ∃ e' ∈ l, w.1 = e'.ref ∧
      ∃ tk, heapGet c.st.heap e'.ref = some tk ∧
        tk.interval = true ∧ tk.enabled = true ∧ tk.removed = false := by
  induction l generalizing c with
  | nil =>
      unfold sweepList at h
      cases h
      exact Or.inl hw
  | cons e0 es ih =>
      obtain ⟨c1, hp, hrest⟩ := sweepList_cons_ok C now e0 es c c2 h
      have hheap := (processEntry_frame C now e0 c c1 hp).1
      rcases ih c1 hrest with hw1 | ⟨e', he', hxr, tk, hg, hflags⟩
      · rcases processEntry_wrappers_src C now e0 c c1 hp w hw1 with hw0 | ⟨hxr, tk, hg, hflags⟩
        · exact Or.inl hw0
        · exact Or.inr ⟨e0, List.mem_cons_self _ _, hxr, tk, hg, hflags⟩
      · exact Or.inr ⟨e', List.mem_cons_of_mem _ he', hxr, tk, by rw [← hheap]; exact hg, hflags⟩

theorem sweepList_recurred_src (C : Collab) (now : TimePoint) (l : List Entry)
    (c c2 : SweepCtx) (h : sweepList C now l c = .ok c2) (p : TimePoint × Nat)
    (hp : p ∈ c2.recurred) :
    p ∈ c.recurred ∨ ∃ e' ∈ l, p.2 = e'.ref ∧
      ∃ tk, heapGet c.st.heap e'.ref = some tk ∧
        ((tk.interval = true ∧ ¬(tk.enabled = true ∧ tk.removed = false)) ∨
         (tk.interval = false ∧ tk.recur = true)) := by
  induction l generalizing c with
  | nil =>
      unfold sweepList at h
      cases h
      exact Or.inl hp
  | cons e0 es ih =>
      obtain ⟨c1, hp1, hrest⟩ := sweepList_cons_ok C now e0 es c c2 h
      have hheap := (processEntry_frame C now e0 c c1 hp1).1
      rcases ih c1 hrest with hpm | ⟨e', he', hxr, tk, hg, hflags⟩
      · rcases processEntry_recurred_src C now e0 c c1 hp1 p hpm with hp0 | ⟨hpr, tk, hg, hflags⟩
        · exact Or.inl hp0
        · exact Or.inr ⟨e0, List.mem_cons_self _ _, hpr, tk, hg, hflags⟩
      · exact Or.inr ⟨e', List.mem_cons_of_mem _ he', hxr, tk, by rw [← hheap]; exact hg, hflags⟩

theorem sweepList_nonRecurred_src (C : Collab) (now : TimePoint) (l : List Entry)
    (c c2 : SweepCtx) (h : sweepList C now l c = .ok c2) (r : Nat)
    (hr : r ∈ c2.nonRecurred) :
    r ∈ c.nonRecurred ∨ ∃ e' ∈ l, r = e'.ref ∧
      ∃ tk, heapGet c.st.heap e'.ref = some tk ∧
        tk.interval = false ∧ tk.recur = false := by
  induction l generalizing c with
  | nil =>
      unfold sweepList at h
      cases h
      exact Or.inl hr
  | cons e0 es ih =>
      obtain ⟨c1, hp1, hrest⟩ := sweepList_cons_ok C now e0 es c c2 h
      have hheap := (processEntry_frame C now e0 c c1 hp1).1
      rcases ih c1 hrest with hrm | ⟨e', he', hxr, tk, hg, hflags⟩
      · rcases processEntry_nonRecurred_src C now e0 c c1 hp1 r hrm with hr0 | ⟨hrr, tk, hg, hflags⟩
        · exact Or.inl hr0
        · exact Or.inr ⟨e0, List.mem_cons_self _ _, hrr, tk, hg, hflags⟩
      · exact Or.inr ⟨e', List.mem_cons_of_mem _ he', hxr, tk, by rw [← hheap]; exact hg, hflags⟩

theorem processEntry_mapFind_frame (C : Collab) (now : TimePoint) (e : Entry)
    (c c1 : SweepCtx) (i : String) (h : processEntry C now e c = .ok c1)
    (hid : ∀ tk, heapGet c.st.heap e.ref = some tk → tk.id ≠ i) :
    mapFind c1.st.tasksMap i = mapFind c.st.tasksMap i := by
  rcases processEntry_cases C now e c c1 h with ⟨_, rfl⟩ | ⟨task, hg, hcase⟩
  · rfl
  · rcases hcase with ⟨_, _, _, rfl⟩ | ⟨_, _, nt, _, rfl⟩ | ⟨_, _, nt, _, rfl⟩ | ⟨_, _, rfl⟩
    · simp only [holdInterval]
      exact mapFind_mapSet_ne _ _ _ _ (Ne.symm (hid task hg))
    · rfl
    · rw [show ({ pushIf task e c with
          recurred := mmInsertBy Prod.fst (nt, e.ref) (pushIf task e c).recurred } : SweepCtx).st.tasksMap
          = c.st.tasksMap from by rw [pushIf_st]]
    · rw [show ({ pushIf task e c with
          nonRecurred := (pushIf task e c).nonRecurred ++ [e.ref] } : SweepCtx).st.tasksMap
          = c.st.tasksMap from by rw [pushIf_st]]

theorem sweepList_mapFind_frame (C : Collab) (now : TimePoint) (l : List Entry)
    (c c2 : SweepCtx) (i : String) (h : sweepList C now l c = .ok c2)
    (hids : ∀ e' ∈ l, ∀ tk, heapGet c.st.heap e'.ref = some tk → tk.id ≠ i) :
    mapFind c2.st.tasksMap i = mapFind c.st.tasksMap i := by
  induction l generalizing c with
  | nil =>
      unfold sweepList at h
      cases h
      rfl
  | cons e0 es ih =>
      obtain ⟨c1, hp, hrest⟩ := sweepList_cons_ok C now e0 es c c2 h
      have hheap := (processEntry_frame C now e0 c c1 hp).1
      have h1 := processEntry_mapFind_frame C now e0 c c1 i hp
        (hids e0 (List.mem_cons_self _ _))
      have h2 := ih c1 hrest (fun e' he' tk hg =>
        hids e' (List.mem_cons_of_mem _ he') tk (by rw [← hheap]; exact hg))
      exact h2.trans h1

theorem readdOne_mapFind_frame (st : SchedState) (p : TimePoint × Nat) (i : String)
    (hid : ∀ tk, heapGet st.heap p.2 = some tk → tk.id ≠ i) :
    mapFind (readdOne st p).tasksMap i = mapFind st.tasksMap i := by
  unfold readdOne
  cases hg : heapGet st.heap p.2 with
  | none => rfl
  | some task =>
      by_cases hrm : task.removed = true
      · simp [hrm]
      · simp only [hrm, Bool.false_eq_true, if_false]
        exact mapFind_mapSet_ne _ _ _ _ (Ne.symm (hid task hg))

theorem readdRecurred_mapFind_frame (l : List (TimePoint × Nat)) (st : SchedState)
    (i : String)
    (hids : ∀ p ∈ l, ∀ tk, heapGet st.heap p.2 = some tk → tk.id ≠ i) :
    mapFind (readdRecurred st l).tasksMap i = mapFind st.tasksMap i := by
  induction l generalizing st with
  | nil => rfl
  | cons p ps ih =>
      have hheap := (readdOne_frame st p).1
      have h1 := readdOne_mapFind_frame st p i (hids p (List.mem_cons_self _ _))
      have h2 := ih (readdOne st p) (fun q hq tk hg =>
        hids q (List.mem_cons_of_mem _ hq) tk (by rw [← hheap]; exact hg))
      exact h2.trans h1

theorem eraseNonRecurred_mapFind_frame (l : List Nat) (st : SchedState) (i : String)
    (hids : ∀ r ∈ l, ∀ tk, heapGet st.heap r = some tk → tk.id ≠ i) :
    mapFind (eraseNonRecurred st l).tasksMap i = mapFind st.tasksMap i := by
  induction l generalizing st with
  | nil => rfl
  | cons r rs ih =>
      have hheap : (eraseNonRecurredOne st r).heap = st.heap := by
        unfold eraseNonRecurredOne
        cases heapGet st.heap r
        · rfl
        · rfl
      have h1 : mapFind (eraseNonRecurredOne st r).tasksMap i = mapFind st.tasksMap i := by
        unfold eraseNonRecurredOne
        cases hg : heapGet st.heap r with
        | none => rfl
        | some task => exact mapFind_mapErase_ne _ _ _ (Ne.symm (hids r (List.mem_cons_self _ _) task hg))
      have h2 := ih (eraseNonRecurredOne st r) (fun q hq tk hg =>
        hids q (List.mem_cons_of_mem _ hq) tk (by rw [← hheap]; exact hg))
      exact h2.trans h1

theorem readdRecurred_tasks_src (l : List (TimePoint × Nat)) (st : SchedState)
    (x : Entry) (hx : x ∈ (readdRecurred st l).tasks) :
    x ∈ st.tasks ∨ ∃ p ∈ l, x.ref = p.2 ∧
      ∃ tk, heapGet st.heap p.2 = some tk ∧ tk.removed = false := by
  induction l generalizing st with
  | nil => exact Or.inl hx
  | cons p ps ih =>
      have hheap := (readdOne_frame st p).1
      rcases ih (readdOne st p) hx with hx1 | ⟨q, hq, hxr, tk, hg, hrm⟩
      · revert hx1
        unfold readdOne
        cases hg : heapGet st.heap p.2 with
        | none => exact fun hx1 => Or.inl hx1
        | some task =>
            by_cases hrm : task.removed = true
            · simp only [hrm, if_true]
              exact fun hx1 => Or.inl hx1
            · simp only [hrm, Bool.false_eq_true, if_false]
              intro hx1
              rcases mem_mmInsertBy.mp hx1 with rfl | hx2
              · exact Or.inr ⟨p, List.mem_cons_self _ _, rfl, task, hg,
                  by cases hb : task.removed
                     · rfl
                     · exact absurd hb hrm⟩
              · exact Or.inl hx2
      · exact Or.inr ⟨q, List.mem_cons_of_mem _ hq, hxr, tk, by rw [← hheap]; exact hg, hrm⟩

theorem sweepList_append_ok (C : Collab) (now : TimePoint) (l1 l2 : List Entry)
    (c c2 : SweepCtx) (h : sweepList C now (l1 ++ l2) c = .ok c2) :
    ∃ cm, sweepList C now l1 c = .ok cm ∧ sweepList C now l2 cm = .ok c2 := by
  induction l1 generalizing c with
  | nil => exact ⟨c, rfl, h⟩
  | cons e0 es ih =>
      obtain ⟨c1, hp, hrest⟩ := sweepList_cons_ok C now e0 (es ++ l2) c c2 h
      obtain ⟨cm, h1, h2⟩ := ih c1 hrest
      refine ⟨cm, ?_, h2⟩
      unfold sweepList
      rw [hp]
      exact h1

/-- The ids of the live tasks referenced by a list of store nodes. -/
def idsOf (heap : List (Nat × Task)) (l : List Entry) : List String :=
  l.filterMap (fun e => (heapGet heap e.ref).map Task.id)

/-- Well-formedness of a scheduler state: distinct nodes of the store and
the holding set reference tasks with distinct ids.  This holds in normal
operation (ids are unique in the index and each node holds the object
registered under its id); the C3 theorem assumes it. -/
def tasksIdsNodup (s : SchedState) : Prop :=
  (idsOf s.heap (s.tasks ++ s.completed)).Nodup

instance (s : SchedState) : Decidable (tasksIdsNodup s) := by
  unfold tasksIdsNodup
  infer_instance

theorem not_id_of_not_mem_idsOf (heap : List (Nat × Task)) (l : List Entry)
    (i : String) (hni : i ∉ idsOf heap l) (e' : Entry) (he' : e' ∈ l)
    (tk : Task) (hg : heapGet heap e'.ref = some tk) : tk.id ≠ i := by
  intro heq
  exact hni (List.mem_filterMap.mpr ⟨e', he', by simp [hg, heq]⟩)

theorem mem_idsOf (heap : List (Nat × Task)) (l : List Entry) (e' : Entry)
    (tk : Task) (he' : e' ∈ l) (hg : heapGet heap e'.ref = some tk) :
    tk.id ∈ idsOf heap l :=
  List.mem_filterMap.mpr ⟨e', he', by simp [hg]⟩

theorem nodup_four_split (L1 L2 L3 L4 : List String) (i : String)
    (hN : (L1 ++ (i :: L2) ++ (L3 ++ L4)).Nodup) :
    i ∉ L1 ∧ i ∉ L2 ∧ i ∉ L3 ∧ i ∉ L4 := by
  rw [List.append_assoc, List.nodup_append] at hN
  obtain ⟨h1, h2, hdisj⟩ := hN
  rw [List.nodup_append] at h2
  obtain ⟨h3, h4, hdisj2⟩ := h2
  rw [List.nodup_cons] at h3
  have hi34 : i ∉ L3 ++ L4 := hdisj2 (List.mem_cons_self _ _)
  refine ⟨?_, h3.1, ?_, ?_⟩
  · intro hmem
    exact hdisj hmem (List.mem_append_left _ (List.mem_cons_self _ _))
  · intro hmem
    exact hi34 (List.mem_append_left _ hmem)
  · intro hmem
    exact hi34 (List.mem_append_right _ hmem)

theorem c3_hold_aux (C : Collab) (now : TimePoint) (s : SchedState)
    (out : SchedState × List Nat × List (Nat × Nat)) (e : Entry) (t : Task)
    (hok : manage_tasks C now s = .ok out)
    (he : e ∈ firedOf now s)
    (hg : heapGet s.heap e.ref = some t)
    (hint : t.interval = true)
    (hen : t.enabled = true) (hrm : t.removed = false) (hN : tasksIdsNodup s) :
    ∃ heid, (e.ref, heid) ∈ out.2.2 ∧
      (⟨heid, e.time, e.ref⟩ : Entry) ∈ out.1.completed ∧
      mapFind out.1.tasksMap t.id = some heid := by
  have hne : firedOf now s ≠ [] := by
    intro h0
    rw [h0] at he
    cases he
  obtain ⟨c, hsw, hout, hpush, hwrapEq⟩ := manage_tasks_ok_decomp C now s out hok hne
  have hcheap : c.st.heap = s.heap := (sweepList_frame C now _ _ c hsw).1
  have houtCompleted : out.1.completed = c.st.completed := by
    rw [hout, (eraseNonRecurred_frame _ _).2.1, (readdRecurred_frame _ _).2]
  obtain ⟨l1, l2, hsplit⟩ := List.append_of_mem he
  -- the id-uniqueness facts for the four segments around `e`
  have htasksplit : s.tasks ++ s.completed =
      (l1 ++ (e :: l2)) ++ (s.tasks.dropWhile (fun x => x.time ≤ now) ++ s.completed) := by
    conv_lhs => rw [← List.takeWhile_append_dropWhile
      (fun x : Entry => decide (x.time ≤ now)) s.tasks]
    rw [show s.tasks.takeWhile (fun x : Entry => decide (x.time ≤ now)) = firedOf now s from rfl,
      hsplit, List.append_assoc, List.append_assoc]
  have hidsall : (idsOf s.heap l1 ++ (t.id :: idsOf s.heap l2) ++
      (idsOf s.heap (s.tasks.dropWhile (fun x => x.time ≤ now)) ++ idsOf s.heap s.completed)).Nodup := by
    have hN2 := hN
    unfold tasksIdsNodup at hN2
    unfold idsOf at hN2 ⊢
    rw [htasksplit] at hN2
    simpa [List.filterMap_append, List.filterMap_cons, hg, List.append_assoc] using hN2
  obtain ⟨hA, hB, hC, hD⟩ := nodup_four_split _ _ _ _ _ hidsall
  -- run the sweep loop around `e`
  rw [hsplit] at hsw
  obtain ⟨cm, hsw1, hsw2⟩ := sweepList_append_ok C now l1 (e :: l2) _ c hsw
  obtain ⟨ce, hpe, hsw3⟩ := sweepList_cons_ok C now e l2 cm c hsw2
  have hmheap : cm.st.heap = s.heap := (sweepList_frame C now l1 _ cm hsw1).1
  have hgm : heapGet cm.st.heap e.ref = some t := by
    rw [hmheap]
    exact hg
  have hce : ce = holdInterval t e cm := by
    rcases processEntry_cases C now e cm ce hpe with ⟨hgn, _⟩ | ⟨t2, hg2, hcase⟩
    · rw [hgm] at hgn
      cases hgn
    · rw [hgm] at hg2
      injection hg2 with ht2
      subst ht2
      rcases hcase with ⟨_, _, _, h1⟩ | ⟨_, hnen, _, _, _⟩ | ⟨hif, _, _, _, _⟩ | ⟨hif, _, _⟩
      · exact h1
      · exact absurd ⟨hen, hrm⟩ hnen
      · rw [hint] at hif
        cases hif
      · rw [hint] at hif
        cases hif
  subst hce
  refine ⟨cm.st.nextEid, ?_, ?_, ?_⟩
  · rw [hwrapEq]
    exact (sweepList_mono C now l2 _ c hsw3).2.1 _ (by simp [holdInterval])
  · rw [houtCompleted]
    refine (sweepList_mono C now l2 _ c hsw3).2.2.1 _ ?_
    simp only [holdInterval]
    exact mem_mmInsertBy.mpr (Or.inl rfl)
  · have hceheap : (holdInterval t e cm).st.heap = s.heap := hmheap
    have hmapce : mapFind (holdInterval t e cm).st.tasksMap t.id = some cm.st.nextEid := by
      simp only [holdInterval]
      exact mapFind_mapSet_self _ _ _
    have hl2frame : mapFind c.st.tasksMap t.id = some cm.st.nextEid := by
      rw [sweepList_mapFind_frame C now l2 _ c t.id hsw3 ?_]
      · exact hmapce
      · intro e2 he2 tk hgx
        refine not_id_of_not_mem_idsOf s.heap l2 t.id hB e2 he2 tk ?_
        rw [← hceheap]
        exact hgx
    -- refs in recurred never carry the id of `t`
    have hrecids : ∀ p ∈ c.recurred, ∀ tk,
        heapGet ({ c.st with tasks := s.tasks.dropWhile (fun x => x.time ≤ now) } : SchedState).heap p.2 = some tk →
        tk.id ≠ t.id := by
      intro p hp tk hgx heq
      have hgx2 : heapGet s.heap p.2 = some tk := by
        have : heapGet c.st.heap p.2 = some tk := hgx
        rw [hcheap] at this
        exact this
      rcases sweepList_recurred_src C now _ _ c hsw p hp with h0 | ⟨e2, he2, hpr, tk2, hg2, hflags⟩
      · cases h0
      · have hg2s : heapGet s.heap e2.ref = some tk2 := hg2
        rw [hpr, hg2s] at hgx2
        injection hgx2 with htk
        rw [htk] at hg2s hflags
        rcases List.mem_append.mp he2 with h1 | h12
        · exact not_id_of_not_mem_idsOf s.heap l1 t.id hA e2 h1 tk hg2s heq
        · rcases List.mem_cons.mp h12 with rfl | h2
          · rw [hg] at hg2s
            injection hg2s with htk2
            rw [← htk2] at hflags
            rcases hflags with ⟨_, hnen⟩ | ⟨hif, _⟩
            · exact hnen ⟨hen, hrm⟩
            · rw [hint] at hif
              cases hif
          · exact not_id_of_not_mem_idsOf s.heap l2 t.id hB e2 h2 tk hg2s heq
    -- refs in nonRecurred never carry the id of `t`
    have hnonids : ∀ r ∈ c.nonRecurred, ∀ tk,
        heapGet (readdRecurred ({ c.st with tasks := s.tasks.dropWhile (fun x => x.time ≤ now) } : SchedState) c.recurred).heap r = some tk →
        tk.id ≠ t.id := by
      intro r hr tk hgx heq
      have hgx2 : heapGet s.heap r = some tk := by
        rw [(readdRecurred_frame c.recurred _).1] at hgx
        have : heapGet c.st.heap r = some tk := hgx
        rw [hcheap] at this
        exact this
      rcases sweepList_nonRecurred_src C now _ _ c hsw r hr with h0 | ⟨e2, he2, hpr, tk2, hg2, hflags⟩
      · cases h0
      · have hg2s : heapGet s.heap e2.ref = some tk2 := hg2
        rw [hpr, hg2s] at hgx2
        injection hgx2 with htk
        rw [htk] at hg2s hflags
        rcases List.mem_append.mp he2 with h1 | h12
        · exact not_id_of_not_mem_idsOf s.heap l1 t.id hA e2 h1 tk hg2s heq
        · rcases List.mem_cons.mp h12 with rfl | h2
          · rw [hg] at hg2s
            injection hg2s with htk2
            rw [← htk2] at hflags
            rw [hint] at hflags
            cases hflags.1
          · exact not_id_of_not_mem_idsOf s.heap l2 t.id hB e2 h2 tk hg2s heq
    rw [hout]
    rw [eraseNonRecurred_mapFind_frame c.nonRecurred _ t.id hnonids,
      readdRecurred_mapFind_frame c.recurred _ t.id hrecids]
    exact hl2frame

theorem c3_removed_aux (C : Collab) (now : TimePoint) (s : SchedState)
    (out : SchedState × List Nat × List (Nat × Nat)) (e : Entry) (t : Task)
    (hok : manage_tasks C now s = .ok out)
    (he : e ∈ firedOf now s)
    (hg : heapGet s.heap e.ref = some t)
    (hrm : t.removed = true) (hN : tasksIdsNodup s) :
    (∀ x ∈ out.1.tasks, x.ref ≠ e.ref) ∧ (∀ x ∈ out.1.completed, x.ref ≠ e.ref) := by
  have hne : firedOf now s ≠ [] := by
    intro h0
    rw [h0] at he
    cases he
  obtain ⟨c, hsw, hout, hpush, hwrapEq⟩ := manage_tasks_ok_decomp C now s out hok hne
  have hcheap : c.st.heap = s.heap := (sweepList_frame C now _ _ c hsw).1
  have houtCompleted : out.1.completed = c.st.completed := by
    rw [hout, (eraseNonRecurred_frame _ _).2.1, (readdRecurred_frame _ _).2]
  have houtTasks : out.1.tasks =
      (readdRecurred ({ c.st with tasks := s.tasks.dropWhile (fun x => x.time ≤ now) } : SchedState)
        c.recurred).tasks := by
    rw [hout, (eraseNonRecurred_frame _ _).1]
  obtain ⟨l1, l2, hsplit⟩ := List.append_of_mem he
  have htasksplit : s.tasks ++ s.completed =
      (l1 ++ (e :: l2)) ++ (s.tasks.dropWhile (fun x => x.time ≤ now) ++ s.completed) := by
    conv_lhs => rw [← List.takeWhile_append_dropWhile
      (fun x : Entry => decide (x.time ≤ now)) s.tasks]
    rw [show s.tasks.takeWhile (fun x : Entry => decide (x.time ≤ now)) = firedOf now s from rfl,
      hsplit, List.append_assoc, List.append_assoc]
  have hidsall : (idsOf s.heap l1 ++ (t.id :: idsOf s.heap l2) ++
      (idsOf s.heap (s.tasks.dropWhile (fun x => x.time ≤ now)) ++ idsOf s.heap s.completed)).Nodup := by
    have hN2 := hN
    unfold tasksIdsNodup at hN2
    unfold idsOf at hN2 ⊢
    rw [htasksplit] at hN2
    simpa [List.filterMap_append, List.filterMap_cons, hg, List.append_assoc] using hN2
  obtain ⟨hA, hB, hC, hD⟩ := nodup_four_split _ _ _ _ _ hidsall
  constructor
  · intro x hx hxr
    rw [houtTasks] at hx
    rcases readdRecurred_tasks_src c.recurred _ x hx with hx1 | ⟨p, hp, hxp, tk, hgp, hrmf⟩
    · have hx2 : x ∈ s.tasks.dropWhile (fun x => x.time ≤ now) := hx1
      have hgx : heapGet s.heap x.ref = some t := by
        rw [hxr]
        exact hg
      exact hC (mem_idsOf _ _ x t hx2 hgx)
    · have hgp2 : heapGet s.heap p.2 = some tk := by
        have : heapGet c.st.heap p.2 = some tk := hgp
        rw [hcheap] at this
        exact this
      rw [← hxp, hxr, hg] at hgp2
      injection hgp2 with htk
      rw [← htk, hrm] at hrmf
      cases hrmf
  · intro x hx hxr
    rw [houtCompleted] at hx
    rcases sweepList_completed_src C now _ _ c hsw x hx with hx1 | ⟨e2, he2, hxe, tk, hgp, hfl⟩
    · have hx2 : x ∈ s.completed := hx1
      have hgx : heapGet s.heap x.ref = some t := by
        rw [hxr]
        exact hg
      exact hD (mem_idsOf _ _ x t hx2 hgx)
    · have hgp2 : heapGet s.heap e2.ref = some tk := hgp
      rw [← hxe, hxr, hg] at hgp2
      injection hgp2 with htk
      have hrmf := hfl.2.2
      rw [← htk, hrm] at hrmf
      cases hrmf

/-- A state holding one disabled interval task (period 10) due at
instant 0. -/
def c3DisabledState : SchedState :=
  { heap := [(0, ⟨"x", "interval: ", .everyTask 10, true, true, false, false⟩)]
    tasks := [⟨0, 0, 0⟩]
    completed := []
    tasksMap := [("x", 0)]
    interrupted := true
    nextEid := 1
    nextRef := 1 }

/-- C3 as stated is false on the code in its disabled branch: a disabled
interval task with period 10, due at instant 0, swept at instant 5, is
re-inserted at `Clock::now() + period = 15` — not at the
schedule-time-based `0 + 10 = 10` the claim requires. -/
theorem c3_counterexample_disabled_drift :
    (manage_tasks trivialCollab 5 c3DisabledState).map
        (fun o => (o.1.tasks.map Entry.time, o.2)) = .ok ([15], [], []) ∧
    ¬ ((0 + 10 : Int) ∈ [(15 : Int)]) := by
  exact ⟨by decide, by decide⟩

/-- C3 (amended): the per-fire policy for non-overlapping (interval) tasks.
When an interval task fires enabled and not removed, it is moved into the
in-flight holding set (keeping its due key), a wrapper is handed to the
pool, and the by-id index points at the holding node; its action is never
submitted directly.  When it fires disabled (not removed) it is not
submitted at all and is re-inserted at `get_new_time` of the sweep's
current time — sweep-time plus the configured duration, not its previous
due instant plus the duration.  When it fires removed it is dropped
permanently from both the store and the holding set.  The wrapper, at
completion time, re-inserts the task into store and index at
completion-time plus the configured duration and removes the holding
node. -/
theorem c3_interval_fire_policy (C : Collab) (now : TimePoint) (s : SchedState)
    (out : SchedState × List Nat × List (Nat × Nat)) (e : Entry) (t : Task)
    (hok : manage_tasks C now s = .ok out)
    (he : e ∈ firedOf now s)
    (hg : heapGet s.heap e.ref = some t)
    (hint : t.interval = true) :
    (t.enabled = true → t.removed = false → tasksIdsNodup s →
       ∃ heid, (e.ref, heid) ∈ out.2.2 ∧
         (⟨heid, e.time, e.ref⟩ : Entry) ∈ out.1.completed ∧
         mapFind out.1.tasksMap t.id = some heid) ∧
    (t.enabled = false → t.removed = false →
       ∀ nt, t.get_new_time C.cron now = .ok nt →
         ∃ eid, (⟨eid, nt, e.ref⟩ : Entry) ∈ out.1.tasks) ∧
    (∀ p, t.kind = .everyTask p → t.get_new_time C.cron now = .ok (now + p)) ∧
    (t.removed = true → tasksIdsNodup s →
       (∀ x ∈ out.1.tasks, x.ref ≠ e.ref) ∧ (∀ x ∈ out.1.completed, x.ref ≠ e.ref)) ∧
    e.ref ∉ out.2.1 ∧
    (¬(t.enabled = true ∧ t.removed = false) → ∀ heid, (e.ref, heid) ∉ out.2.2) ∧
    (∀ (nowc : TimePoint) (s1 s2 : SchedState) (r heid : Nat) (task : Task) (nt : TimePoint),
       heapGet s1.heap r = some task →
       task.get_new_time C.cron nowc = .ok nt →
       interval_complete C nowc s1 r heid = .ok s2 →
       ((⟨s1.nextEid, nt, r⟩ : Entry) ∈ s2.tasks ∧
        mapFind s2.tasksMap task.id = some s1.nextEid ∧
        (∀ x ∈ s2.completed, x.eid ≠ heid) ∧
        (∀ p, task.kind = .everyTask p → nt = nowc + p))) := by
  have hne : firedOf now s ≠ [] := by
    intro h0
    rw [h0] at he
    cases he
  refine ⟨fun hen hrm hN => c3_hold_aux C now s out e t hok he hg hint hen hrm hN,
    ?_, ?_, fun hrm hN => c3_removed_aux C now s out e t hok he hg hrm hN, ?_, ?_, ?_⟩
  · -- disabled: re-inserted at get_new_time of the sweep instant
    intro hen hrm nt hnt
    obtain ⟨c, hsw, hout, hpush, hwrapEq⟩ := manage_tasks_ok_decomp C now s out hok hne
    have hrecmem : (nt, e.ref) ∈ c.recurred := by
      refine sweepList_recurred_add C now (firedOf now s) _ c e t nt hsw he hg ?_ hnt
      exact Or.inl ⟨hint, fun hc => by
        rw [hen] at hc
        cases hc.1⟩
    have hcheap : c.st.heap = s.heap := (sweepList_frame C now _ _ c hsw).1
    have hg1 : heapGet ({ c.st with
        tasks := s.tasks.dropWhile (fun x => x.time ≤ now) } : SchedState).heap e.ref = some t := by
      have : heapGet c.st.heap e.ref = some t := by
        rw [hcheap]
        exact hg
      exact this
    obtain ⟨eid, hmem⟩ := readdRecurred_tasks_add c.recurred _ nt e.ref t hrecmem hg1 hrm
    refine ⟨eid, ?_⟩
    rw [hout, (eraseNonRecurred_frame c.nonRecurred _).1]
    exact hmem
  · intro p hk
    simp [Task.get_new_time, hk]
  · -- never a direct `threads.push(task->f)` for an interval task
    intro hmem
    obtain ⟨c, hsw, hout, hpush, hwrapEq⟩ := manage_tasks_ok_decomp C now s out hok hne
    rw [hpush] at hmem
    rcases sweepList_pushes_src C now _ _ c hsw e.ref hmem with h0 | ⟨e2, he2, hre, tk, hg2, hif, _⟩
    · cases h0
    · have hg2s : heapGet s.heap e2.ref = some tk := hg2
      rw [← hre, hg] at hg2s
      injection hg2s with htk
      rw [← htk] at hif
      rw [hint] at hif
      cases hif
  · -- no wrapper submitted when disabled or removed
    intro hnen heid hmem
    obtain ⟨c, hsw, hout, hpush, hwrapEq⟩ := manage_tasks_ok_decomp C now s out hok hne
    rw [hwrapEq] at hmem
    rcases sweepList_wrappers_src C now _ _ c hsw (e.ref, heid) hmem with h0 | ⟨e2, he2, hre, tk, hg2, _, hen2, hrm2⟩
    · cases h0
    · have hg2s : heapGet s.heap e2.ref = some tk := hg2
      rw [show ((e.ref, heid) : Nat × Nat).1 = e.ref from rfl] at hre
      rw [← hre, hg] at hg2s
      injection hg2s with htk
      rw [← htk] at hen2 hrm2
      exact hnen ⟨hen2, hrm2⟩
  · -- the completion wrapper
    intro nowc s1 s2 r heid task nt hgr hnt hic
    unfold interval_complete at hic
    rw [hgr] at hic
    simp only [hnt] at hic
    have hs2 : s2 = { add_task_unkeyed s1 nt r with
        completed := (add_task_unkeyed s1 nt r).completed.filter (fun x => x.eid ≠ heid) } :=
      (Except.ok.inj hic).symm
    have hadd : add_task_unkeyed s1 nt r = add_task_impl s1 nt r task.id := by
      unfold add_task_unkeyed
      rw [hgr]
    subst hs2
    rw [hadd]
    refine ⟨?_, ?_, ?_, ?_⟩
    · simp only [add_task_impl]
      exact mem_mmInsertBy.mpr (Or.inl rfl)
    · simp only [add_task_impl]
      exact mapFind_mapSet_self _ _ _
    · intro x hx
      simp only [add_task_impl] at hx
      have := (List.mem_filter.mp hx).2
      simpa using this
    · intro p hk
      have hval : task.get_new_time C.cron nowc = .ok (nowc + p) := by
        simp [Task.get_new_time, hk]
      rw [hnt] at hval
      exact Except.ok.inj hval

/-- A state holding one enabled interval task (period 10) due immediately:
the result of `interval("x", 10, f)` on a fresh scheduler at instant 0. -/
def c3IntervalState : SchedState :=
  { heap := [(0, mkEveryTask "x" "interval: " 10 true)]
    tasks := [⟨0, 0, 0⟩]
    completed := []
    tasksMap := [("x", 0)]
    interrupted := true
    nextEid := 1
    nextRef := 1 }

/-- The state after sweeping `c3IntervalState` at instant 0: the task sits
in the holding set, the index points at the holding node. -/
def c3HeldState : SchedState :=
  { heap := [(0, mkEveryTask "x" "interval: " 10 true)]
    tasks := []
    completed := [⟨1, 0, 0⟩]
    tasksMap := [("x", 1)]
    interrupted := true
    nextEid := 2
    nextRef := 1 }

/-- The state after the wrapper of `c3HeldState`'s task completes at
instant 5: re-inserted at `5 + 10 = 15`, holding node gone. -/
def c3CompletedState : SchedState :=
  { heap := [(0, mkEveryTask "x" "interval: " 10 true)]
    tasks := [⟨2, 15, 0⟩]
    completed := []
    tasksMap := [("x", 2)]
    interrupted := true
    nextEid := 3
    nextRef := 1 }

/-- Witness for C3: the interval task of `c3IntervalState`, fired at 0, is
moved to the holding set with its wrapper submitted and stays reachable
from the index; its completion at instant 5 re-inserts it at 15. -/
theorem c3_interval_fire_policy_witness :
    (∃ heid, ((0 : Nat), heid) ∈ [((0 : Nat), (1 : Nat))] ∧
       (⟨heid, 0, 0⟩ : Entry) ∈ c3HeldState.completed ∧
       mapFind c3HeldState.tasksMap "x" = some heid) ∧
    (⟨2, 15, 0⟩ : Entry) ∈ c3CompletedState.tasks := by
  have h := c3_interval_fire_policy trivialCollab 0 c3IntervalState
      (c3HeldState, [], [(0, 1)]) ⟨0, 0, 0⟩ (mkEveryTask "x" "interval: " 10 true)
      (by decide) (by decide) (by decide) rfl
  refine ⟨h.1 rfl rfl (by decide), ?_⟩
  exact (h.2.2.2.2.2.2 5 c3HeldState c3CompletedState 0 1
      (mkEveryTask "x" "interval: " 10 true) 15 (by decide) (by decide) (by decide)).1

/-- The state after `remove_task "x"` while the interval task of
`c3HeldState` is in flight: `removed = true` on the shared object, id gone
from the index, the holding node still present. -/
def c4RemovedState : SchedState :=
  { heap := [(0, ⟨"x", "interval: ", .everyTask 10, true, true, true, true⟩)]
    tasks := []
    completed := [⟨1, 0, 0⟩]
    tasksMap := []
    interrupted := true
    nextEid := 2
    nextRef := 1 }

/-- The state after the in-flight wrapper of the removed task completes at
instant 5: `add_task` re-inserted the removed task into the store AND
re-bound its id in the index. -/
def c4ResurrectedState : SchedState :=
  { heap := [(0, ⟨"x", "interval: ", .everyTask 10, true, true, true, true⟩)]
    tasks := [⟨2, 15, 0⟩]
    completed := []
    tasksMap := [("x", 2)]
    interrupted := true
    nextEid := 3
    nextRef := 1 }

/-- The state after the next sweep (at instant 20) drops the removed task
from the store: the index still maps "x" to the erased node 2 — a dangling
iterator. -/
def c4DanglingState : SchedState :=
  { heap := [(0, ⟨"x", "interval: ", .everyTask 10, true, true, true, true⟩)]
    tasks := []
    completed := []
    tasksMap := [("x", 2)]
    interrupted := true
    nextEid := 3
    nextRef := 1 }

/-- The worlds of the C4 trace: register `interval("x", 10)` at instant 0,
sweep at 0 (task moves in flight), `remove_task("x")` while in flight,
wrapper completion at 5, sweep at 20. -/
def c4W0 : World := ⟨emptyState, [], 0⟩

/-- World after the registration step of the C4 trace. -/
def c4W1 : World := ⟨c3IntervalState, [], 0⟩

/-- World after the first sweep of the C4 trace (wrapper (0, 1) in
flight). -/
def c4W2 : World := ⟨c3HeldState, [(0, 1)], 0⟩

/-- World after removing "x" while its wrapper is in flight. -/
def c4W3 : World := ⟨c4RemovedState, [(0, 1)], 0⟩

/-- World after the wrapper completes at instant 5. -/
def c4W4 : World := ⟨c4ResurrectedState, [], 5⟩

/-- World after the sweep at instant 20: the index entry for "x" dangles. -/
def c4W5 : World := ⟨c4DanglingState, [], 20⟩

/-- C4 fails on the code: the reachable interleaving
`interval("x") → sweep → remove("x") (while in flight) → wrapper
completion → sweep` leaves the by-id index with an entry for "x" that
points at no live node of the store or the holding set.  The completion
wrapper calls the unchecked `add_task(time, task)` overloaded form, which
re-binds the removed task's id in `tasks_map`; the next sweep then drops
the removed task from the store (re-add loop skips `removed` tasks) but
only cleans `tasks_map` for non-recurring tasks, leaving the binding
dangling.  Any later `enable_task`/`disable_task`/`get_tasks_list` on this
state dereferences an invalidated `std::multimap` iterator (undefined
behaviour), and the id "x" can never be registered again. -/
theorem c4_removed_interval_dangles_index :
    Reachable trivialCollab c4W5 ∧ ¬ noDangling c4W5.st := by
  constructor
  · have s1 : Step trivialCollab c4W0 c4W1 :=
      Step.regInterval c4W0 0 "x" 10 c3IntervalState (by decide) (by decide)
    have s2 : Step trivialCollab c4W1 c4W2 :=
      Step.sweep c4W1 0 c3HeldState [] [(0, 1)] (by decide) (by decide)
    have s3 : Step trivialCollab c4W2 c4W3 := by
      rw [show c4W3 = ⟨(remove_task c4W2.st "x").2, c4W2.pending, c4W2.clock⟩ from by decide]
      exact Step.ctlRemove c4W2 "x"
    have s4 : Step trivialCollab c4W3 c4W4 := by
      rw [show c4W4 = ⟨c4ResurrectedState, c4W3.pending.erase (0, 1), 5⟩ from by decide]
      exact Step.complete c4W3 5 0 1 c4ResurrectedState (by decide) (by decide) (by decide)
    have s5 : Step trivialCollab c4W4 c4W5 :=
      Step.sweep c4W4 20 c4DanglingState [] [] (by decide) (by decide)
    exact Relation.ReflTransGen.tail
      (Relation.ReflTransGen.tail
        (Relation.ReflTransGen.tail
          (Relation.ReflTransGen.tail
            (Relation.ReflTransGen.tail Relation.ReflTransGen.refl s1) s2) s3) s4) s5
  · intro hND
    have := hND ("x", 2) (by decide)
    simp [findEntry, c4W5, c4DanglingState] at this

end Cppsched
